import Mathlib

/-!
# acmecancel: a verification development

A shallow embedding of `main.go` (package `main` of voutasaurus/acmecancel):
`newClient`, `client.disableAuthz` and `directory.Nonce`, together with the
parts of the Go standard library they call (`encoding/json`, `net/http`,
`errors`) and of `go-jose` (`NewSigner`, `Signer.Sign`).

Text is modelled as sequences of Unicode characters: a Go string or response
body that is valid UTF-8 corresponds to the `String` of its code points.

Effects are explicit: the functions that reach the outside world take the
world (the trace of what happened so far) and return it extended, and the
behaviour of the network and of the signing primitive is a parameter (`Env`).
A response body is delivered whole (failures while reading it are outside the
model), interface values passed in are not nil, and the decoder has no limit
on nesting depth.
-/

namespace Acmecancel

/-! ## encoding/json: values -/

/-- A JSON value as the decoder sees it.  Numbers keep their literal text, as
`encoding/json` hands the raw literal to the destination. -/
inductive JSON where
  | null
  | bool (b : Bool)
  | num (lit : List Char)
  | str (s : List Char)
  | arr (items : List JSON)
  | obj (members : List (List Char × JSON))

/-- The errors `encoding/json` (and the `UnmarshalJSON` of `math/big`) can
report. -/
inductive DecodeError where
  /-- The error `io.EOF`: the stream held no value at all. -/
  | eof
  /-- The error `io.ErrUnexpectedEOF`: the stream ended inside a value. -/
  | unexpectedEOF
  /-- A `*json.SyntaxError`. -/
  | syntaxError
  /-- A `*json.UnmarshalTypeError`: JSON value `value` does not fit the Go
  destination. -/
  | unmarshalType (value : String)
  /-- The error of `(*big.Int).UnmarshalJSON`. -/
  | bigInt
  deriving DecidableEq, Repr

/-! ## encoding/json: the scanner (`scanner.go`) -/

/-- The step functions of the scanner (`stateBeginValue`, `stateInString`, ...,
`stateError`). -/
inductive Step where
  | beginValue | beginValueOrEmpty | beginStringOrEmpty | beginString
  | endValue | endTop | error
  | inString | inStringEsc | inStringEscU | inStringEscU1 | inStringEscU12
  | inStringEscU123
  | neg | s0 | s1 | dot | dot0 | e | eSign | e0
  | t | tr | tru | f | fa | fal | fals | n | nu | nul
  deriving DecidableEq, Repr

/-- The constants `parseObjectKey`, `parseObjectValue`, `parseArrayValue`. -/
inductive ParseState where
  | objectKey | objectValue | arrayValue
  deriving DecidableEq, Repr

/-- An entry of the scanner's `parseState` stack, together with what has been
read of the enclosing composite so far (most recent first): the members of an
object and the key whose value is awaited, or the elements of an array. -/
structure Frame where
  ps : ParseState
  members : List (List Char × JSON)
  key : List Char
  items : List JSON

/-- The scanner state: the current step function, the `parseState` stack, the
raw text of the literal being read (most recent character first) and the
finished top-level value (set when `endTop` is). -/
structure Scanner where
  step : Step
  stack : List Frame
  lit : List Char
  top : Option JSON

/-- A fresh scanner (`scanner.reset`). -/
def Scanner.reset : Scanner :=
  { step := Step.beginValue, stack := [], lit := [], top := none }

/-- The function `isSpace` of `scanner.go`. -/
def isSpace (c : Char) : Bool :=
  c = ' ' || c = '\t' || c = '\r' || c = '\n'

/-- Decimal digit test. -/
def isDigit (c : Char) : Bool := '0'.toNat ≤ c.toNat && c.toNat ≤ '9'.toNat

/-- Value of a hexadecimal digit, if `c` is one. -/
def hexVal (c : Char) : Option Nat :=
  if '0'.toNat ≤ c.toNat ∧ c.toNat ≤ '9'.toNat then some (c.toNat - '0'.toNat)
  else if 'a'.toNat ≤ c.toNat ∧ c.toNat ≤ 'f'.toNat then some (c.toNat - 'a'.toNat + 10)
  else if 'A'.toNat ≤ c.toNat ∧ c.toNat ≤ 'F'.toNat then some (c.toNat - 'A'.toNat + 10)
  else none

/-- The function `getu4` of `decode.go`: the code unit written `\uXXXX` at the
head of `s`, if `s` starts with such an escape. -/
def getu4 : List Char → Option Nat
  | '\\' :: 'u' :: a :: b :: c :: d :: _ =>
    match hexVal a, hexVal b, hexVal c, hexVal d with
    | some x, some y, some z, some w => some (((x * 16 + y) * 16 + z) * 16 + w)
    | _, _, _, _ => none
  | _ => none

/-- The replacement character U+FFFD (`unicode.ReplacementChar`). -/
def replacementChar : Char := Char.ofNat 0xFFFD

/-- The function `utf16.IsSurrogate`. -/
def isSurrogate (r : Nat) : Bool := 0xD800 ≤ r && r < 0xE000

/-- The function `utf16.DecodeRune`: the code point of a surrogate pair, or
U+FFFD when the pair is not valid. -/
def decodeSurrogates (r1 r2 : Nat) : Char :=
  if 0xD800 ≤ r1 ∧ r1 < 0xDC00 ∧ 0xDC00 ≤ r2 ∧ r2 < 0xE000 then
    Char.ofNat ((r1 - 0xD800) * 1024 + (r2 - 0xDC00) + 0x10000)
  else replacementChar

/-- The loop of `unquote` (`decode.go`) on the text between the quotes of a
string literal the scanner has accepted; `skip` counts characters still to be
passed over (the second escape of a surrogate pair that was consumed with the
first).  Escapes are resolved, a surrogate pair becomes one character and an
unpaired surrogate becomes U+FFFD. -/
def unquoteLoop : Nat → List Char → List Char
  | _, [] => []
  | k + 1, _ :: rest => unquoteLoop k rest
  | 0, '\\' :: 'u' :: a :: b :: c :: d :: rest =>
    match getu4 ['\\', 'u', a, b, c, d] with
    | none => []
    | some rr =>
      if isSurrogate rr then
        match getu4 rest with
        | some rr1 =>
          if decodeSurrogates rr rr1 = replacementChar then
            replacementChar :: unquoteLoop 0 rest
          else decodeSurrogates rr rr1 :: unquoteLoop 6 rest
        | none => replacementChar :: unquoteLoop 0 rest
      else Char.ofNat rr :: unquoteLoop 0 rest
  | 0, '\\' :: x :: rest =>
    (if x = 'b' then Char.ofNat 8
     else if x = 'f' then Char.ofNat 12
     else if x = 'n' then '\n'
     else if x = 'r' then '\r'
     else if x = 't' then '\t'
     else x) :: unquoteLoop 0 rest
  | 0, c :: rest => c :: unquoteLoop 0 rest
termination_by structural _ cs => cs

/-- The function `unquote` of `decode.go`. -/
def unquote (cs : List Char) : List Char := unquoteLoop 0 cs

/-- Hands a finished value to the enclosing composite: as the key of an object
(`parseObjectKey`), as the value of the pending key (`parseObjectValue`) or as
the next array element; with an empty `parseState` it is the top-level value.
The scanner then awaits what may follow a value. -/
def Scanner.finish (s : Scanner) (v : JSON) : Scanner :=
  match s.stack with
  | [] => { step := Step.endTop, stack := [], lit := [], top := some v }
  | fr :: rest =>
    let fr1 : Frame :=
      match fr.ps with
      | ParseState.objectKey =>
        match v with
        | JSON.str k => { fr with key := k }
        | _ => fr
      | ParseState.objectValue => { fr with members := (fr.key, v) :: fr.members }
      | ParseState.arrayValue => { fr with items := v :: fr.items }
    { step := Step.endValue, stack := fr1 :: rest, lit := [], top := none }

/-- The step function `stateEndTop`: after the top-level value only space may
follow; anything else makes the next step fail. -/
def stateEndTop (s : Scanner) (c : Char) : Scanner :=
  if isSpace c then s else { s with step := Step.error }

/-- The step function `stateEndValue`: after a value, inside a composite. -/
def stateEndValue (s : Scanner) (c : Char) : Except DecodeError Scanner :=
  match s.stack with
  | [] => .ok (stateEndTop { s with step := Step.endTop } c)
  | fr :: rest =>
    if isSpace c then .ok { s with step := Step.endValue }
    else
      match fr.ps with
      | ParseState.objectKey =>
        if c = ':' then
          .ok { s with step := Step.beginValue,
                       stack := { fr with ps := ParseState.objectValue } :: rest }
        else .error DecodeError.syntaxError
      | ParseState.objectValue =>
        if c = ',' then
          .ok { s with step := Step.beginString,
                       stack := { fr with ps := ParseState.objectKey } :: rest }
        else if c = '}' then
          .ok (Scanner.finish { s with stack := rest } (JSON.obj fr.members.reverse))
        else .error DecodeError.syntaxError
      | ParseState.arrayValue =>
        if c = ',' then .ok { s with step := Step.beginValue }
        else if c = ']' then
          .ok (Scanner.finish { s with stack := rest } (JSON.arr fr.items.reverse))
        else .error DecodeError.syntaxError

/-- A number literal ends at `c`: the literal is handed over and `c` is
treated by `stateEndValue` (by `stateEndTop` at top level). -/
def endNumber (s : Scanner) (c : Char) : Except DecodeError Scanner :=
  let s1 := Scanner.finish s (JSON.num s.lit.reverse)
  match s1.top with
  | some _ => .ok (stateEndTop s1 c)
  | none => stateEndValue s1 c

/-- The step function `stateBeginValue`. -/
def stateBeginValue (s : Scanner) (c : Char) : Except DecodeError Scanner :=
  if isSpace c then .ok s
  else if c = '{' then
    .ok { s with step := Step.beginStringOrEmpty,
                 stack := { ps := ParseState.objectKey, members := [], key := [],
                            items := [] } :: s.stack }
  else if c = '[' then
    .ok { s with step := Step.beginValueOrEmpty,
                 stack := { ps := ParseState.arrayValue, members := [], key := [],
                            items := [] } :: s.stack }
  else if c = '"' then .ok { s with step := Step.inString, lit := [] }
  else if c = '-' then .ok { s with step := Step.neg, lit := [c] }
  else if c = '0' then .ok { s with step := Step.s0, lit := [c] }
  else if c = 't' then .ok { s with step := Step.t }
  else if c = 'f' then .ok { s with step := Step.f }
  else if c = 'n' then .ok { s with step := Step.n }
  else if isDigit c then .ok { s with step := Step.s1, lit := [c] }
  else .error DecodeError.syntaxError

/-- The step function `stateBeginString`. -/
def stateBeginString (s : Scanner) (c : Char) : Except DecodeError Scanner :=
  if isSpace c then .ok s
  else if c = '"' then .ok { s with step := Step.inString, lit := [] }
  else .error DecodeError.syntaxError

/-- The step function `state0`: after the integer part of a number. -/
def state0 (s : Scanner) (c : Char) : Except DecodeError Scanner :=
  if c = '.' then .ok { s with step := Step.dot, lit := c :: s.lit }
  else if c = 'e' ∨ c = 'E' then .ok { s with step := Step.e, lit := c :: s.lit }
  else endNumber s c

/-- The step function `stateESign`: after `e` and an optional sign. -/
def stateESign (s : Scanner) (c : Char) : Except DecodeError Scanner :=
  if isDigit c then .ok { s with step := Step.e0, lit := c :: s.lit }
  else .error DecodeError.syntaxError

/-- Expects the character `want` of a literal name and moves to `next`. -/
def expectChar (s : Scanner) (c want : Char) (next : Step) : Except DecodeError Scanner :=
  if c = want then .ok { s with step := next } else .error DecodeError.syntaxError

/-- Expects the last character `want` of a literal name, whose value is `v`. -/
def expectLast (s : Scanner) (c want : Char) (v : JSON) : Except DecodeError Scanner :=
  if c = want then .ok (Scanner.finish s v) else .error DecodeError.syntaxError

/-- One call `s.step(s, c)` of the scanner. -/
def Scanner.feed (s : Scanner) (c : Char) : Except DecodeError Scanner :=
  match s.step with
  | Step.beginValue => stateBeginValue s c
  | Step.beginValueOrEmpty =>
    if isSpace c then .ok s
    else if c = ']' then stateEndValue s c
    else stateBeginValue s c
  | Step.beginStringOrEmpty =>
    if isSpace c then .ok s
    else if c = '}' then
      match s.stack with
      | [] => stateEndValue s c
      | fr :: rest =>
        stateEndValue { s with stack := { fr with ps := ParseState.objectValue } :: rest } c
    else stateBeginString s c
  | Step.beginString => stateBeginString s c
  | Step.endValue => stateEndValue s c
  | Step.endTop => .ok (stateEndTop s c)
  | Step.error => .error DecodeError.syntaxError
  | Step.inString =>
    if c = '"' then .ok (Scanner.finish s (JSON.str (unquote s.lit.reverse)))
    else if c = '\\' then .ok { s with step := Step.inStringEsc, lit := c :: s.lit }
    else if c.toNat < 0x20 then .error DecodeError.syntaxError
    else .ok { s with lit := c :: s.lit }
  | Step.inStringEsc =>
    if c = 'b' ∨ c = 'f' ∨ c = 'n' ∨ c = 'r' ∨ c = 't' ∨ c = '\\' ∨ c = '/' ∨ c = '"' then
      .ok { s with step := Step.inString, lit := c :: s.lit }
    else if c = 'u' then .ok { s with step := Step.inStringEscU, lit := c :: s.lit }
    else .error DecodeError.syntaxError
  | Step.inStringEscU =>
    if (hexVal c).isSome then .ok { s with step := Step.inStringEscU1, lit := c :: s.lit }
    else .error DecodeError.syntaxError
  | Step.inStringEscU1 =>
    if (hexVal c).isSome then .ok { s with step := Step.inStringEscU12, lit := c :: s.lit }
    else .error DecodeError.syntaxError
  | Step.inStringEscU12 =>
    if (hexVal c).isSome then .ok { s with step := Step.inStringEscU123, lit := c :: s.lit }
    else .error DecodeError.syntaxError
  | Step.inStringEscU123 =>
    if (hexVal c).isSome then .ok { s with step := Step.inString, lit := c :: s.lit }
    else .error DecodeError.syntaxError
  | Step.neg =>
    if c = '0' then .ok { s with step := Step.s0, lit := c :: s.lit }
    else if isDigit c then .ok { s with step := Step.s1, lit := c :: s.lit }
    else .error DecodeError.syntaxError
  | Step.s1 =>
    if isDigit c then .ok { s with lit := c :: s.lit } else state0 s c
  | Step.s0 => state0 s c
  | Step.dot =>
    if isDigit c then .ok { s with step := Step.dot0, lit := c :: s.lit }
    else .error DecodeError.syntaxError
  | Step.dot0 =>
    if isDigit c then .ok { s with lit := c :: s.lit }
    else if c = 'e' ∨ c = 'E' then .ok { s with step := Step.e, lit := c :: s.lit }
    else endNumber s c
  | Step.e =>
    if c = '+' ∨ c = '-' then .ok { s with step := Step.eSign, lit := c :: s.lit }
    else stateESign s c
  | Step.eSign => stateESign s c
  | Step.e0 =>
    if isDigit c then .ok { s with lit := c :: s.lit } else endNumber s c
  | Step.t => expectChar s c 'r' Step.tr
  | Step.tr => expectChar s c 'u' Step.tru
  | Step.tru => expectLast s c 'e' (JSON.bool true)
  | Step.f => expectChar s c 'a' Step.fa
  | Step.fa => expectChar s c 'l' Step.fal
  | Step.fal => expectChar s c 's' Step.fals
  | Step.fals => expectLast s c 'e' (JSON.bool false)
  | Step.n => expectChar s c 'u' Step.nu
  | Step.nu => expectChar s c 'l' Step.nul
  | Step.nul => expectLast s c 'l' JSON.null

/-- The loop of `Decoder.readValue`: feeds the scanner until the first value
of the stream is complete.  At the end of the stream a space is fed to let a
pending number end; a stream that ends inside a value gives
`io.ErrUnexpectedEOF`, one that holds only space gives `io.EOF` (`sawNonSpace`
records which). -/
def readValueLoop (sawNonSpace : Bool) (s : Scanner) : List Char → Except DecodeError JSON
  | [] =>
    let atEnd : Except DecodeError JSON :=
      if sawNonSpace then .error DecodeError.unexpectedEOF else .error DecodeError.eof
    match Scanner.feed s ' ' with
    | .ok s1 =>
      match s1.top with
      | some v => .ok v
      | none => atEnd
    | .error _ => atEnd
  | c :: cs =>
    match Scanner.feed s c with
    | .error err => .error err
    | .ok s1 =>
      match s1.top with
      | some v => .ok v
      | none => readValueLoop (sawNonSpace || !isSpace c) s1 cs

/-- The method `Decoder.readValue` on a stream holding `data`: the first JSON
value of the stream; what follows it is not looked at. -/
def readValue (data : String) : Except DecodeError JSON :=
  readValueLoop false Scanner.reset data.toList

/-- The loop of `checkValid`: every character is fed to the scanner. -/
def checkValidLoop (s : Scanner) : List Char → Except DecodeError Scanner
  | [] => .ok s
  | c :: cs =>
    match Scanner.feed s c with
    | .error err => .error err
    | .ok s1 => checkValidLoop s1 cs

/-- The function `checkValid` followed by the scanner's `eof`: `data` must be
exactly one JSON value, surrounded by space at most. -/
def checkValid (data : String) : Except DecodeError JSON :=
  match checkValidLoop Scanner.reset data.toList with
  | .error err => .error err
  | .ok s =>
    if s.step = Step.error then .error DecodeError.syntaxError
    else
      match s.top with
      | some v => .ok v
      | none =>
        match Scanner.feed s ' ' with
        | .ok s1 =>
          match s1.top with
          | some v => .ok v
          | none => .error DecodeError.syntaxError
        | .error _ => .error DecodeError.syntaxError

/-! ## encoding/json: storing into Go values (`decode.go`) -/

/-- Case folding of key characters as `encoding/json` applies it when it looks
for the field of a key: ASCII letters fold to upper case, and the two
non-ASCII characters that fold to ASCII letters, U+017F (long s) and U+212A
(Kelvin sign), fold to `S` and `K`. -/
def foldChar (c : Char) : Char :=
  if 'a'.toNat ≤ c.toNat ∧ c.toNat ≤ 'z'.toNat then Char.ofNat (c.toNat - 32)
  else if c.toNat = 0x17F then 'S'
  else if c.toNat = 0x212A then 'K'
  else c

/-- Whether object key `key` selects the struct field whose JSON name is
`name`: an exact match, or a match under case folding. -/
def keyMatches (name : String) (key : List Char) : Bool :=
  key = name.toList || key.map foldChar = name.toList.map foldChar

/-- Storing a JSON value into a Go `string` that holds `cur`
(`literalStore`, and `array`/`object` on a non-composite destination):
`null` leaves it alone, a string sets it, anything else is an
`UnmarshalTypeError`. -/
def storeString (cur : String) : JSON → Except DecodeError String
  | JSON.null => .ok cur
  | JSON.str x => .ok (String.mk x)
  | JSON.bool _ => .error (DecodeError.unmarshalType "bool")
  | JSON.num _ => .error (DecodeError.unmarshalType "number")
  | JSON.arr _ => .error (DecodeError.unmarshalType "array")
  | JSON.obj _ => .error (DecodeError.unmarshalType "object")

/-- The member loop of `decodeState.object` for a struct whose only field is a
`string` with JSON name `name`: members are taken in order, a member whose key
does not select the field is skipped, a type error is saved (the first one is
kept, `saveError`) and decoding goes on. -/
def storeMembers (name : String) :
    String × Option DecodeError → List (List Char × JSON) → String × Option DecodeError
  | acc, [] => acc
  | (cur, saved), (k, v) :: rest =>
    if keyMatches name k then
      match storeString cur v with
      | .ok x => storeMembers name (x, saved) rest
      | .error err =>
        storeMembers name (cur, (match saved with | some e0 => some e0 | none => some err)) rest
    else storeMembers name (cur, saved) rest

/-- The method `decodeState.unmarshal` into a zero-valued struct whose only
field is a `string` with JSON name `name`; the result is the field. -/
def unmarshalStringField (name : String) : JSON → Except DecodeError String
  | JSON.null => .ok ""
  | JSON.obj ms =>
    match storeMembers name ("", none) ms with
    | (x, none) => .ok x
    | (_, some err) => .error err
  | JSON.str _ => .error (DecodeError.unmarshalType "string")
  | JSON.bool _ => .error (DecodeError.unmarshalType "bool")
  | JSON.num _ => .error (DecodeError.unmarshalType "number")
  | JSON.arr _ => .error (DecodeError.unmarshalType "array")

/-- The call `json.NewDecoder(body).Decode(&v)` for `v` a zero-valued struct
whose only field is a `string` with JSON name `name`, on a body that holds
`data`. -/
def decodeStringField (name : String) (data : String) : Except DecodeError String :=
  match readValue data with
  | .error err => .error err
  | .ok v => unmarshalStringField name v

/-- Decimal value of a non-empty digit sequence. -/
def digitsVal : List Char → Option Nat
  | [] => none
  | cs => if cs.all isDigit then some (cs.foldl (fun n c => 10 * n + (c.toNat - '0'.toNat)) 0)
          else none

/-- The method `(*big.Int).UnmarshalJSON` on the raw text of a JSON number:
the text must be an integer in base 10 with an optional sign; a fraction or an
exponent is an error. -/
def bigIntOfLit : List Char → Option Int
  | '-' :: cs => (digitsVal cs).map (fun n => - (n : Int))
  | cs => (digitsVal cs).map (fun n => (n : Int))

/-- Storing a JSON value into a Go `*big.Int` that holds `cur`: `null` sets
the pointer to nil, any other value goes to `UnmarshalJSON`, which accepts
integer literals only. -/
def storeBigInt (_cur : Option Int) : JSON → Except DecodeError (Option Int)
  | JSON.null => .ok none
  | JSON.num lit =>
    match bigIntOfLit lit with
    | some z => .ok (some z)
    | none => .error DecodeError.bigInt
  | _ => .error DecodeError.bigInt

/-- The anonymous struct `reg` of `newClient`: `X, Y, D *big.Int`; `none` is
the nil pointer. -/
structure Reg where
  X : Option Int
  Y : Option Int
  D : Option Int
  deriving DecidableEq, Repr

/-- The member loop of `decodeState.object` for `reg`: a key selects the first
of the fields `X`, `Y`, `D` it matches; the error of an `UnmarshalJSON` ends
the decoding. -/
def storeReg : Reg → List (List Char × JSON) → Except DecodeError Reg
  | reg, [] => .ok reg
  | reg, (k, v) :: rest =>
    if keyMatches "X" k then
      match storeBigInt reg.X v with
      | .ok x => storeReg { reg with X := x } rest
      | .error err => .error err
    else if keyMatches "Y" k then
      match storeBigInt reg.Y v with
      | .ok y => storeReg { reg with Y := y } rest
      | .error err => .error err
    else if keyMatches "D" k then
      match storeBigInt reg.D v with
      | .ok d => storeReg { reg with D := d } rest
      | .error err => .error err
    else storeReg reg rest

/-- The call `json.Unmarshal([]byte(ks), &reg)` of `newClient`: `ks` must be
one valid JSON value (`checkValid`), which is then stored into the zero-valued
`reg`. -/
def unmarshalReg (ks : String) : Except DecodeError Reg :=
  match checkValid ks with
  | .error err => .error err
  | .ok JSON.null => .ok { X := none, Y := none, D := none }
  | .ok (JSON.obj ms) => storeReg { X := none, Y := none, D := none } ms
  | .ok (JSON.str _) => .error (DecodeError.unmarshalType "string")
  | .ok (JSON.bool _) => .error (DecodeError.unmarshalType "bool")
  | .ok (JSON.num _) => .error (DecodeError.unmarshalType "number")
  | .ok (JSON.arr _) => .error (DecodeError.unmarshalType "array")

/-- Equality of decoding results is decidable. -/
instance instDecidableEqExcept {ε α : Type} [DecidableEq ε] [DecidableEq α] :
    DecidableEq (Except ε α)
  | .ok a, .ok b =>
    if h : a = b then isTrue (by rw [h]) else isFalse (by intro h1; cases h1; exact h rfl)
  | .error a, .error b =>
    if h : a = b then isTrue (by rw [h]) else isFalse (by intro h1; cases h1; exact h rfl)
  | .ok _, .error _ => isFalse (by intro h1; cases h1)
  | .error _, .ok _ => isFalse (by intro h1; cases h1)

/-! ## encoding/json: `Marshal` of a struct of strings (`encode.go`) -/

/-- A field of a Go struct value as `reflect` shows it: the Go name, the struct
tag as its `key:"value"` pairs, and the (string) value. -/
structure StructField where
  name : String
  tag : List (String × String)
  value : String

/-- The JSON name of a field: the value of the struct tag under key `json` if
there is one and it is not empty, the Go field name otherwise. -/
def StructField.jsonName (fld : StructField) : String :=
  match fld.tag.lookup "json" with
  | some v => if v = "" then fld.name else v
  | none => fld.name

/-- Lower-case hexadecimal digit. -/
def hexDigit (n : Nat) : Char := "0123456789abcdef".toList.getD n '0'

/-- How the encoder writes one character of a string (HTML escaping on, as
`Marshal` has it): quote, backslash, newline, carriage return and tab get
their short escapes, the other control characters and `<`, `>`, `&` are
written `\u00XX`, and so are U+2028 and U+2029. -/
def escapeChar (c : Char) : List Char :=
  if c = '"' then ['\\', '"']
  else if c = '\\' then ['\\', '\\']
  else if c = '\n' then ['\\', 'n']
  else if c = '\r' then ['\\', 'r']
  else if c = '\t' then ['\\', 't']
  else if c.toNat < 0x20 ∨ c = '<' ∨ c = '>' ∨ c = '&' then
    ['\\', 'u', '0', '0', hexDigit (c.toNat / 16), hexDigit (c.toNat % 16)]
  else if c.toNat = 0x2028 then ['\\', 'u', '2', '0', '2', '8']
  else if c.toNat = 0x2029 then ['\\', 'u', '2', '0', '2', '9']
  else [c]

/-- The method `encodeState.string`: a quoted JSON string. -/
def encodeString (x : String) : List Char :=
  '"' :: (x.toList.flatMap escapeChar ++ ['"'])

/-- The members of an encoded struct, separated by commas, in field order. -/
def encodeFields : List StructField → List Char
  | [] => []
  | [fld] => encodeString fld.jsonName ++ ':' :: encodeString fld.value
  | fld :: rest =>
    encodeString fld.jsonName ++ ':' :: encodeString fld.value ++ ',' :: encodeFields rest

/-! ## Go errors, HTTP and the outside world -/

/-- The Go `error` values the program can return. -/
inductive GoError where
  /-- The package variable `ErrNoNonce`. -/
  | ErrNoNonce
  /-- The package variable `ErrPending`. -/
  | ErrPending
  /-- A value made by `errors.New(msg)` at run time; it is equal to no
  package variable, whatever its text. -/
  | new (msg : String)
  /-- An error of `encoding/json`. -/
  | json (err : DecodeError)
  /-- An error of `net/http`: the request got no response. -/
  | transport (cause : String)
  /-- The error go-jose makes of a nonce source's failure. -/
  | nonce (cause : GoError)
  /-- Any other error of go-jose (unsupported algorithm, failed signature). -/
  | jose (cause : String)
  deriving DecidableEq, Repr

/-- The text `err.Error()` of the errors whose text the program fixes: the two
package variables and the values of `errors.New`.  The texts of library errors
are not modelled. -/
def GoError.Error : GoError → Option String
  | GoError.ErrNoNonce => some "acme server did not respond with a proper nonce header"
  | GoError.ErrPending => some "authz still pending"
  | GoError.new msg => some msg
  | _ => none

/-- The type `http.Header`: canonical header name to its values. -/
abbrev Header := String → List String

/-- The method `Header.Get` for a key in canonical form: the first value
of the key, or the empty string. -/
def Header.Get (h : Header) (key : String) : String :=
  match h key with
  | [] => ""
  | v :: _ => v

/-- The type `http.Response`, as far as the program looks at it: status code,
header, and the text the body stream delivers. -/
structure Response where
  StatusCode : Int
  Header : Header
  Body : String

/-- The curves of `crypto/elliptic` the model names. -/
inductive Curve where
  | P256 | P384 | P521
  deriving DecidableEq, Repr

/-- The type `ecdsa.PublicKey`; `none` is a nil `*big.Int`. -/
structure PublicKey where
  Curve : Curve
  X : Option Int
  Y : Option Int
  deriving DecidableEq, Repr

/-- The type `ecdsa.PrivateKey`. -/
structure PrivateKey where
  PublicKey : PublicKey
  D : Option Int
  deriving DecidableEq, Repr

/-- The type `jose.SignatureAlgorithm`. -/
inductive SignatureAlgorithm where
  | ES256 | ES384 | ES512
  | other (name : String)
  deriving DecidableEq, Repr

/-- The protected header of a signature: the algorithm, the embedded public
key and the nonce. -/
structure Protected where
  alg : SignatureAlgorithm
  jwk : PublicKey
  nonce : String
  deriving DecidableEq, Repr

/-- The type `jose.JsonWebSignature` with its single signature.  Its
`FullSerialize` is taken to be an injective encoding, so a request body is
represented by the object it serialises. -/
structure JsonWebSignature where
  payload : String
  header : Protected
  signature : String
  deriving DecidableEq, Repr

/-- What the program does to the outside world, in order. -/
inductive Event where
  /-- A call of a stand-in nonce source, which handed out `value`. -/
  | issued (value : String)
  /-- An HTTP GET of `url` (1 second timeout). -/
  | get (url : String)
  /-- An HTTP POST to `url` with the given content type and body. -/
  | post (url contentType : String) (body : JsonWebSignature)
  /-- The method `Close` on the body of the response to the request that is
  entry number `request` of the trace. -/
  | close (request : Nat)
  deriving DecidableEq, Repr

/-- The state of the outside world: the trace of events so far, oldest first. -/
abbrev World := List Event

/-- Whether the body of the response to request number `request` has been
closed. -/
def bodyClosed (w : World) (request : Nat) : Bool :=
  w.contains (Event.close request)

/-- The behaviour of the network and of the signing primitive, which may
depend on everything that happened before. -/
structure Env where
  /-- The response to a GET, or the reason there is none. -/
  httpGet : World → String → Except String Response
  /-- The response to a POST, or the reason there is none. -/
  httpPost : World → String → String → JsonWebSignature → Except String Response
  /-- The ECDSA signature over protected header and payload, or the reason
  there is none. -/
  signPayload : World → PrivateKey → Protected → String → Except String String

/-- The interface `jose.NonceSource`: the method `Nonce() (string, error)`,
acting on the world. -/
abbrev NonceSource := World → (String × Option GoError) × World

/-- The function `json.Marshal` on a struct of string fields: an object with
one member per field, in field order.  It has no failure for such a value. -/
def jsonMarshal (fields : List StructField) : Except GoError String :=
  .ok (String.mk ('{' :: (encodeFields fields ++ ['}'])))

/-! ## go-jose: the signer -/

/-- Modelled from the spec: the signer of go-jose, whose code is not part of
the sources.  A signer is bound to an algorithm and a key, and to a nonce
source once `SetNonceSource` has been called. -/
structure Signer where
  alg : SignatureAlgorithm
  key : PrivateKey
  nonceSource : Option NonceSource

/-- Modelled from the spec: the function `jose.NewSigner` of go-jose for an
`*ecdsa.PrivateKey`, whose code is not part of the sources.  It accepts the
three ECDSA algorithms and looks at nothing in the key: it does not check that
the point lies on the curve or matches the scalar. -/
def NewSigner (alg : SignatureAlgorithm) (priv : PrivateKey) : Except GoError Signer :=
  match alg with
  | SignatureAlgorithm.other _ => .error (GoError.jose "unsupported algorithm")
  | _ => .ok { alg := alg, key := priv, nonceSource := none }

/-- Modelled from the spec: the method `SetNonceSource` of go-jose. -/
def Signer.SetNonceSource (sg : Signer) (ns : NonceSource) : Signer :=
  { sg with nonceSource := some ns }

/-- Modelled from the spec: the signature step of `Sign` of go-jose, once the
nonce is known.  The protected header holds the algorithm, the public key and
the nonce, and the primitive signs header and payload. -/
def Signer.signWith (env : Env) (sg : Signer) (payload nonce : String) (w : World) :
    Except GoError JsonWebSignature × World :=
  let hdr : Protected := { alg := sg.alg, jwk := sg.key.PublicKey, nonce := nonce }
  match env.signPayload w sg.key hdr payload with
  | .error cause => (.error (GoError.jose cause), w)
  | .ok sig => (.ok { payload := payload, header := hdr, signature := sig }, w)

/-- Modelled from the spec: the method `Sign` of go-jose, whose code is not
part of the sources.  The signer calls its nonce source once, fails if the
source fails, and otherwise signs with the nonce it got in the protected
header. -/
def Signer.Sign (env : Env) (sg : Signer) (payload : String) (w : World) :
    Except GoError JsonWebSignature × World :=
  match sg.nonceSource with
  | none => Signer.signWith env sg payload "" w
  | some ns =>
    match ns w with
    | ((_, some err), w1) => (.error (GoError.nonce err), w1)
    | ((nonce, none), w1) => Signer.signWith env sg payload nonce w1

/-! ## main.go -/

/-- The type `directory`: the URL of an ACME directory. -/
abbrev directory := String

/-- The constant `staging`. -/
def staging : directory := "https://acme-staging.api.letsencrypt.org/directory"

/-- The constant `production`. -/
def production : directory := "https://acme-v01.api.letsencrypt.org/directory"

/-- The type `client`. -/
structure client where
  directoryURL : String
  signer : Signer

/-- The function `newClient`: the key string is unmarshalled into `reg`, an
ECDSA private key on P-256 is made of its three fields, and a signer for
ES256 is built from it and bound to the nonce source `ns`. -/
def newClient (ks : String) (ns : NonceSource) : Except GoError client :=
  match unmarshalReg ks with
  | .error err => .error (GoError.json err)
  | .ok reg =>
    let priv : PrivateKey :=
      { D := reg.D, PublicKey := { X := reg.X, Y := reg.Y, Curve := Curve.P256 } }
    match NewSigner SignatureAlgorithm.ES256 priv with
    | .error err => .error err
    | .ok signer => .ok { directoryURL := "", signer := signer.SetNonceSource ns }

/-- The anonymous struct value that `disableAuthz` marshals: the fields
`Resource` and `Status` with their struct tags as the source writes them (the
tag of `Status` has the key `jsom`). -/
def deactivation : List StructField :=
  [ { name := "Resource", tag := [("json", "resource")], value := "authz" },
    { name := "Status", tag := [("jsom", "status")], value := "deactivated" } ]

/-- The content type of the POST. -/
def joseJSON : String := "application/jose+json"

/-- The part of `disableAuthz` that follows `defer resp.Body.Close()`: the
classification of the response.  `none` is the nil error. -/
def classify (resp : Response) : Option GoError :=
  if resp.StatusCode ≥ 400 then
    match decodeStringField "detail" resp.Body with
    | .error err => some (GoError.json err)
    | .ok detail => some (GoError.new detail)
  else
    match decodeStringField "status" resp.Body with
    | .error err => some (GoError.json err)
    | .ok status => if status = "pending" then some GoError.ErrPending else none

/-- The method `client.disableAuthz`: marshal the payload, sign it, POST the
signed object to `url`, classify the response; the deferred `Close` of the
response body runs when the method returns.  The result is the returned error
(`none` for nil) and the world afterwards. -/
def client.disableAuthz (env : Env) (c : client) (url : String) (w : World) :
    Option GoError × World :=
  match jsonMarshal deactivation with
  | .error err => (some err, w)
  | .ok b =>
    match c.signer.Sign env b w with
    | (.error err, w1) => (some err, w1)
    | (.ok signed, w1) =>
      let w2 := w1 ++ [Event.post url joseJSON signed]
      match env.httpPost w1 url joseJSON signed with
      | .error cause => (some (GoError.transport cause), w2)
      | .ok resp => (classify resp, w2 ++ [Event.close w1.length])

/-- The method `directory.Nonce`: GET the directory; the deferred `Close` of
the response body runs when the method returns.  The result is the returned
pair of nonce and error, and the world afterwards. -/
def directory.Nonce (env : Env) (d : directory) : NonceSource := fun w =>
  let w1 := w ++ [Event.get d]
  match env.httpGet w d with
  | .error cause => (("", some (GoError.transport cause)), w1)
  | .ok resp =>
    let ret : String × Option GoError :=
      if resp.StatusCode.tdiv 100 ≠ 2 then ("", some GoError.ErrNoNonce)
      else
        let nonce := resp.Header.Get "Replay-Nonce"
        if nonce = "" then ("", some GoError.ErrNoNonce)
        else (nonce, none)
    (ret, w1 ++ [Event.close w.length])

/-! ## Stand-ins for the outside world -/

/-- A stand-in nonce source that never fails: its `k`-th call (counting from
0) hands out `f k`. -/
def counterSource (f : Nat → String) : NonceSource := fun w =>
  let v := f (w.countP (fun ev => match ev with | Event.issued _ => true | _ => false))
  ((v, none), w ++ [Event.issued v])

/-- A header with the single entry `key: value`. -/
def headerOf (key value : String) : Header :=
  fun k => if k = key then [value] else []

/-- An environment in which every request gets the response `resp` and every
signature is `sig`. -/
def constEnv (resp : Response) (sig : String) : Env :=
  { httpGet := fun _ _ => .ok resp,
    httpPost := fun _ _ _ _ => .ok resp,
    signPayload := fun _ _ _ _ => .ok sig }

/-- An environment without a network: no request gets a response. -/
def offlineEnv (cause : String) : Env :=
  { httpGet := fun _ _ => .error cause,
    httpPost := fun _ _ _ _ => .error cause,
    signPayload := fun _ _ _ _ => .ok "" }

/-! ## Notions used in the statements -/

/-- The prime of the curve P-256. -/
def p256P : Int := 0xffffffff00000001000000000000000000000000ffffffffffffffffffffffff

/-- The coefficient `b` of the curve P-256. -/
def p256B : Int := 0x5ac635d8aa3a93e7b3ebbd55769886bc651d06b0cc53b0f63bce3c3e27d2604b

/-- The method `IsOnCurve` of `elliptic.P256()`: both coordinates lie in
`[0, p)` and satisfy `y² = x³ - 3x + b` modulo `p`.  The program never calls
it. -/
def isOnCurveP256 (x y : Int) : Bool :=
  0 ≤ x && x < p256P && 0 ≤ y && y < p256P
    && (y * y - (x * x * x - 3 * x + p256B)) % p256P == 0

/-- Whether a JSON value can be stored into a `*big.Int`: `null` and integer
literals can. -/
def storableBigInt : JSON → Bool
  | JSON.null => true
  | JSON.num lit => (bigIntOfLit lit).isSome
  | _ => false

/-- Whether a JSON value can be stored into a Go `string`: `null` and strings
can. -/
def storableString : JSON → Bool
  | JSON.null => true
  | JSON.str _ => true
  | _ => false

/-- The JSON name of the field that `disableAuthz` decodes from a response
with status code `code`: `detail` from 400 on, `status` below. -/
def fieldOfStatus (code : Int) : String :=
  if code ≥ 400 then "detail" else "status"

/-- Whether key `k` selects one of the fields `X`, `Y`, `D` of `reg`. -/
def selectsRegField (k : List Char) : Bool :=
  keyMatches "X" k || keyMatches "Y" k || keyMatches "D" k

/-- The private key `newClient` makes of a decoded `reg`. -/
def keyOfReg (reg : Reg) : PrivateKey :=
  { D := reg.D, PublicKey := { X := reg.X, Y := reg.Y, Curve := Curve.P256 } }

/-- The decimal literal of an integer, as JSON writes it. -/
def intLit : Int → List Char
  | Int.ofNat n => Nat.toDigits 10 n
  | Int.negSucc n => '-' :: Nat.toDigits 10 (n + 1)

/-- The key string `{"X":x,"Y":y,"D":d}` with the three integers written in
decimal. -/
def keyText (x y d : Int) : String :=
  String.mk ("\x7b\"X\":".toList ++ (intLit x ++ ',' :: ("\"Y\":".toList ++ (intLit y ++ ',' ::
    ("\"D\":".toList ++ (intLit d ++ ['}']))))))

/-- What makes a list of characters the decimal numeral of `n`. -/
def Numeral (n : Nat) (pre : List Char) : Prop :=
  (∀ c ∈ pre, isDigit c = true)
  ∧ pre.foldl (fun a c => 10 * a + (c.toNat - '0'.toNat)) 0 = n
  ∧ ((n = 0 ∧ pre = ['0']) ∨ (n ≠ 0 ∧ ∃ c r, pre = c :: r ∧ c ≠ '0'))

/-- A well-formed account key string. -/
def sampleKey : String := "\x7b\"X\":1,\"Y\":2,\"D\":3\x7d"

/-- The client `newClient` builds from `sampleKey` and a counting nonce
source. -/
def sampleClient : client :=
  { directoryURL := "",
    signer :=
      { alg := SignatureAlgorithm.ES256,
        key := { D := some 3, PublicKey := { X := some 1, Y := some 2, Curve := Curve.P256 } },
        nonceSource := some (counterSource toString) } }

/-- The signed object `sampleClient` sends when its nonce source hands out
`nonce` and the signature is `sig`. -/
def sampleSigned (nonce sig : String) : JsonWebSignature :=
  { payload := "\x7b\"resource\":\"authz\",\"Status\":\"deactivated\"\x7d",
    header := { alg := SignatureAlgorithm.ES256,
                jwk := { X := some 1, Y := some 2, Curve := Curve.P256 },
                nonce := nonce },
    signature := sig }

/-- A response with status `code`, no header and body `body`. -/
def plainResponse (code : Int) (body : String) : Response :=
  { StatusCode := code, Header := fun _ => [], Body := body }

/-- A response with status `code`, the header `Replay-Nonce: value` and an
empty body. -/
def nonceResponse (code : Int) (value : String) : Response :=
  { StatusCode := code, Header := headerOf "Replay-Nonce" value, Body := "" }

/-! ## Lemmas -/

/-- The status test of `directory.Nonce`: with Go's truncating division,
`s / 100 = 2` holds exactly for `200 ≤ s ≤ 299`. -/
theorem tdiv_hundred_eq_two (s : Int) : s.tdiv 100 = 2 ↔ 200 ≤ s ∧ s ≤ 299 := by
  rcases Int.lt_or_le s 0 with h | h
  · have h1 : s.tdiv 100 ≤ 0 := by
      have h2 := Int.tdiv_nonneg (a := -s) (b := 100) (by omega) (by omega)
      rw [Int.neg_tdiv] at h2
      omega
    constructor
    · intro h2; omega
    · intro h2; omega
  · rw [Int.tdiv_eq_ediv h (by omega)]
    omega

/-- When the signature succeeds and the POST gets a response, `disableAuthz`
returns the classification of the response, and the world has gained the POST
and then the `Close` of the response body. -/
theorem disableAuthz_of_response (env : Env) (c : client) (url b : String)
    (w w1 : World) (signed : JsonWebSignature) (resp : Response)
    (hb : jsonMarshal deactivation = .ok b)
    (hsign : c.signer.Sign env b w = (.ok signed, w1))
    (hpost : env.httpPost w1 url joseJSON signed = .ok resp) :
    c.disableAuthz env url w
      = (classify resp, w1 ++ [Event.post url joseJSON signed] ++ [Event.close w1.length]) := by
  unfold client.disableAuthz
  rw [hb]
  simp only [hsign, hpost]

/-- The marshalled payload is the same in every call. -/
theorem jsonMarshal_deactivation :
    jsonMarshal deactivation = .ok "\x7b\"resource\":\"authz\",\"Status\":\"deactivated\"\x7d" := by
  decide

/-- What `sampleClient` signs in a world without earlier nonce calls. -/
theorem sampleClient_sign (resp : Response) (sig : String) :
    sampleClient.signer.Sign (constEnv resp sig)
        "\x7b\"resource\":\"authz\",\"Status\":\"deactivated\"\x7d" []
      = (.ok (sampleSigned "0" sig), [Event.issued "0"]) := by
  rfl

/-- What `newClient` returns once the key string has been unmarshalled: the
signer of go-jose has no failure for ES256. -/
theorem newClient_of_unmarshal (ks : String) (ns : NonceSource) (reg : Reg)
    (h : unmarshalReg ks = .ok reg) :
    newClient ks ns
      = .ok { directoryURL := "",
              signer := { alg := SignatureAlgorithm.ES256, key := keyOfReg reg,
                          nonceSource := some ns } } := by
  unfold newClient
  rw [h]
  rfl

/-- A failure of `json.Unmarshal` is the failure of `newClient`. -/
theorem newClient_of_unmarshal_error (ks : String) (ns : NonceSource) (e : DecodeError)
    (h : unmarshalReg ks = .error e) :
    newClient ks ns = .error (GoError.json e) := by
  unfold newClient
  rw [h]

/-- A storableBigInt value is stored without error. -/
theorem storeBigInt_of_storable (cur : Option Int) (v : JSON) (h : storableBigInt v = true) :
    ∃ r, storeBigInt cur v = .ok r := by
  cases v with
  | null => exact ⟨none, rfl⟩
  | num lit =>
    simp only [storableBigInt] at h
    cases hl : bigIntOfLit lit with
    | none => rw [hl] at h; cases h
    | some z => exact ⟨some z, by simp [storeBigInt, hl]⟩
  | bool b => cases h
  | str x => cases h
  | arr xs => cases h
  | obj ms => cases h

/-- The member loop succeeds when every member that selects a field holds a
storableBigInt value. -/
theorem storeReg_ok (ms : List (List Char × JSON)) :
    ∀ reg : Reg, (∀ m ∈ ms, selectsRegField m.1 = true → storableBigInt m.2 = true) →
      ∃ out, storeReg reg ms = .ok out := by
  induction ms with
  | nil => intro reg _; exact ⟨reg, rfl⟩
  | cons m rest ih =>
    intro reg h
    obtain ⟨k, v⟩ := m
    have hrest : ∀ m ∈ rest, selectsRegField m.1 = true → storableBigInt m.2 = true :=
      fun m hm => h m (List.mem_cons_of_mem _ hm)
    have hv : selectsRegField k = true → storableBigInt v = true := h (k, v) (List.mem_cons_self _ _)
    unfold storeReg
    by_cases hx : keyMatches "X" k = true
    · obtain ⟨r, hr⟩ := storeBigInt_of_storable reg.X v (hv (by simp [selectsRegField, hx]))
      simp only [hx, if_true, hr]
      exact ih _ hrest
    · by_cases hy : keyMatches "Y" k = true
      · obtain ⟨r, hr⟩ := storeBigInt_of_storable reg.Y v (hv (by simp [selectsRegField, hy]))
        simp only [hx, hy, if_true, if_false, hr]
        exact ih _ hrest
      · by_cases hd : keyMatches "D" k = true
        · obtain ⟨r, hr⟩ := storeBigInt_of_storable reg.D v (hv (by simp [selectsRegField, hd]))
          simp only [hx, hy, hd, if_true, if_false, hr]
          exact ih _ hrest
        · simp only [hx, hy, hd, if_false]
          exact ih _ hrest

/-- A key that selects a field has the folded name of that field. -/
theorem map_fold_of_keyMatches (name : String) (k : List Char) (h : keyMatches name k = true) :
    k.map foldChar = name.toList.map foldChar := by
  unfold keyMatches at h
  simp only [Bool.or_eq_true, decide_eq_true_eq] at h
  rcases h with h | h
  · rw [h]
  · exact h

/-- The member loop leaves alone the fields that no key selects. -/
theorem storeReg_untouched (ms : List (List Char × JSON)) :
    ∀ reg out : Reg, storeReg reg ms = .ok out →
      ((∀ m ∈ ms, keyMatches "X" m.1 = false) → out.X = reg.X)
      ∧ ((∀ m ∈ ms, keyMatches "Y" m.1 = false) → out.Y = reg.Y)
      ∧ ((∀ m ∈ ms, keyMatches "D" m.1 = false) → out.D = reg.D) := by
  induction ms with
  | nil =>
    intro reg out h
    simp only [storeReg, Except.ok.injEq] at h
    subst h
    exact ⟨fun _ => rfl, fun _ => rfl, fun _ => rfl⟩
  | cons m rest ih =>
    intro reg out h
    obtain ⟨k, v⟩ := m
    unfold storeReg at h
    have hsub : ∀ (name : String), (∀ m ∈ (k, v) :: rest, keyMatches name m.1 = false) →
        keyMatches name k = false ∧ ∀ m ∈ rest, keyMatches name m.1 = false :=
      fun name hall => ⟨hall (k, v) (List.mem_cons_self _ _),
        fun m hm => hall m (List.mem_cons_of_mem _ hm)⟩
    by_cases hx : keyMatches "X" k = true
    · have hfx := map_fold_of_keyMatches "X" k hx
      have hy : keyMatches "Y" k = false := by
        cases hk : keyMatches "Y" k with
        | false => rfl
        | true =>
          have hfy := map_fold_of_keyMatches "Y" k hk
          rw [hfx] at hfy
          exact absurd hfy (by decide)
      have hd : keyMatches "D" k = false := by
        cases hk : keyMatches "D" k with
        | false => rfl
        | true =>
          have hfd := map_fold_of_keyMatches "D" k hk
          rw [hfx] at hfd
          exact absurd hfd (by decide)
      simp only [hx, if_true] at h
      cases hs : storeBigInt reg.X v with
      | error err => rw [hs] at h; cases h
      | ok r =>
        rw [hs] at h
        obtain ⟨h1, h2, h3⟩ := ih _ out h
        refine ⟨fun hall => ?_, fun hall => h2 (hsub "Y" hall).2, fun hall => h3 (hsub "D" hall).2⟩
        have := (hsub "X" hall).1
        rw [hx] at this
        cases this
    · by_cases hy : keyMatches "Y" k = true
      · have hfy := map_fold_of_keyMatches "Y" k hy
        have hd : keyMatches "D" k = false := by
          cases hk : keyMatches "D" k with
          | false => rfl
          | true =>
            have hfd := map_fold_of_keyMatches "D" k hk
            rw [hfy] at hfd
            exact absurd hfd (by decide)
        simp only [hx, hy, if_true, if_false] at h
        cases hs : storeBigInt reg.Y v with
        | error err => rw [hs] at h; cases h
        | ok r =>
          rw [hs] at h
          obtain ⟨h1, h2, h3⟩ := ih _ out h
          refine ⟨fun hall => h1 (hsub "X" hall).2, fun hall => ?_,
            fun hall => h3 (hsub "D" hall).2⟩
          have := (hsub "Y" hall).1
          rw [hy] at this
          cases this
      · by_cases hd : keyMatches "D" k = true
        · simp only [hx, hy, hd, if_true, if_false] at h
          cases hs : storeBigInt reg.D v with
          | error err => rw [hs] at h; cases h
          | ok r =>
            rw [hs] at h
            obtain ⟨h1, h2, h3⟩ := ih _ out h
            refine ⟨fun hall => h1 (hsub "X" hall).2, fun hall => h2 (hsub "Y" hall).2,
              fun hall => ?_⟩
            have := (hsub "D" hall).1
            rw [hd] at this
            cases this
        · simp only [hx, hy, hd, if_false] at h
          obtain ⟨h1, h2, h3⟩ := ih _ out h
          exact ⟨fun hall => h1 (hsub "X" hall).2, fun hall => h2 (hsub "Y" hall).2,
            fun hall => h3 (hsub "D" hall).2⟩

/-- What `Sign` returns when the bound nonce source hands out `n` and the
signature succeeds: the signed object carries `n` in its protected header, and
the world is the one the nonce source left. -/
theorem sign_of_nonce (env : Env) (sg : Signer) (ns : NonceSource) (b n sig : String)
    (w w1 : World) (hns : sg.nonceSource = some ns) (hn : ns w = ((n, none), w1))
    (hs : env.signPayload w1 sg.key { alg := sg.alg, jwk := sg.key.PublicKey, nonce := n } b
      = .ok sig) :
    sg.Sign env b w
      = (.ok { payload := b,
               header := { alg := sg.alg, jwk := sg.key.PublicKey, nonce := n },
               signature := sig }, w1) := by
  unfold Signer.Sign
  rw [hns]
  simp only [hn]
  unfold Signer.signWith
  simp only [hs]

/-- Once the signature has succeeded, the world after `disableAuthz` is the
world `Sign` left, followed by the POST and, when there was a response, by
the `Close` of its body. -/
theorem disableAuthz_world (env : Env) (c : client) (url b : String)
    (w w1 : World) (signed : JsonWebSignature)
    (hb : jsonMarshal deactivation = .ok b)
    (hsign : c.signer.Sign env b w = (.ok signed, w1)) :
    ∃ t, (c.disableAuthz env url w).2 = w1 ++ Event.post url joseJSON signed :: t
      ∧ (t = [] ∨ t = [Event.close w1.length]) := by
  unfold client.disableAuthz
  rw [hb]
  simp only [hsign]
  cases hp : env.httpPost w1 url joseJSON signed with
  | error cause => exact ⟨[], rfl, Or.inl rfl⟩
  | ok resp => exact ⟨[Event.close w1.length], by simp, Or.inr rfl⟩

/-- The signer of a client made by `newClient` is for ES256 and is bound to
the nonce source that was passed in. -/
theorem newClient_signer (ks : String) (ns : NonceSource) (c : client)
    (hc : newClient ks ns = .ok c) :
    c.signer.alg = SignatureAlgorithm.ES256 ∧ c.signer.nonceSource = some ns := by
  cases hu : unmarshalReg ks with
  | error e =>
    rw [newClient_of_unmarshal_error ks ns e hu] at hc
    cases hc
  | ok reg =>
    rw [newClient_of_unmarshal ks ns reg hu] at hc
    simp only [Except.ok.injEq] at hc
    subst hc
    exact ⟨rfl, rfl⟩

theorem unquoteLoop_plain_cons (c : Char) (rest : List Char) (hc : c ≠ '\\') :
    unquoteLoop 0 (c :: rest) = c :: unquoteLoop 0 rest := by
  rw [unquoteLoop]
  · intro a b c2 d r h _
    exact hc h
  · intro x r h _
    exact hc h

/-- The characters the encoder writes as `\u00XX`. -/
theorem escaped_cases (c : Char) (h : c.toNat < 0x20 ∨ c = '<' ∨ c = '>' ∨ c = '&') :
    ∃ n, n < 64 ∧ c = Char.ofNat n := by
  refine ⟨c.toNat, ?_, (Char.ofNat_toNat c).symm⟩
  rcases h with h | rfl | rfl | rfl
  · omega
  · decide
  · decide
  · decide

theorem unquoteLoop_escapeChar (c : Char) (rest : List Char) :
    unquoteLoop 0 (escapeChar c ++ rest) = c :: unquoteLoop 0 rest := by
  unfold escapeChar
  split
  · next h => subst h; rfl
  · split
    · next h => subst h; rfl
    · split
      · next h => subst h; rfl
      · split
        · next h => subst h; rfl
        · split
          · next h => subst h; rfl
          · split
            · next h =>
              obtain ⟨n, hn, rfl⟩ := escaped_cases c h
              interval_cases n <;> rfl
            · split
              · next h =>
                have hc : c = Char.ofNat 0x2028 := by
                  rw [← Char.ofNat_toNat c, h]
                subst hc; rfl
              · split
                · next h =>
                  have hc : c = Char.ofNat 0x2029 := by
                    rw [← Char.ofNat_toNat c, h]
                  subst hc; rfl
                · next h1 h2 h3 h4 h5 h6 h7 h8 =>
                  exact unquoteLoop_plain_cons c rest h2

theorem unquote_encoded (cs : List Char) : unquote (cs.flatMap escapeChar) = cs := by
  unfold unquote
  induction cs with
  | nil => rfl
  | cons c rest ih =>
    rw [List.flatMap_cons, unquoteLoop_escapeChar, ih]

/-- Inside a string literal, the scanner takes the encoding of one character
as part of the literal. -/
theorem readValueLoop_escapeChar (c : Char) (b : Bool) (stack : List Frame)
    (lit rest : List Char) :
    ∃ b1, readValueLoop b { step := Step.inString, stack := stack, lit := lit, top := none }
          (escapeChar c ++ rest)
        = readValueLoop b1
            { step := Step.inString, stack := stack,
              lit := (escapeChar c).reverse ++ lit, top := none } rest := by
  unfold escapeChar
  split
  · next h => subst h; exact ⟨_, rfl⟩
  · split
    · next h => subst h; exact ⟨_, rfl⟩
    · split
      · next h => subst h; exact ⟨_, rfl⟩
      · split
        · next h => subst h; exact ⟨_, rfl⟩
        · split
          · next h => subst h; exact ⟨_, rfl⟩
          · split
            · next h =>
              obtain ⟨n, hn, rfl⟩ := escaped_cases c h
              interval_cases n <;> exact ⟨_, rfl⟩
            · split
              · next h =>
                have hc : c = Char.ofNat 0x2028 := by
                  rw [← Char.ofNat_toNat c, h]
                subst hc; exact ⟨_, rfl⟩
              · split
                · next h =>
                  have hc : c = Char.ofNat 0x2029 := by
                    rw [← Char.ofNat_toNat c, h]
                  subst hc; exact ⟨_, rfl⟩
                · next h1 h2 h3 h4 h5 h6 h7 h8 =>
                  have h9 : ¬ c.toNat < 0x20 := fun h => h6 (Or.inl h)
                  refine ⟨b || !isSpace c, ?_⟩
                  rw [List.singleton_append, readValueLoop]
                  simp only [Scanner.feed, h1, h2, h9, if_false]
                  rfl

/-- The scanner reads the encoding of a string, as the value of the last
member of a top-level object, back as that string. -/
theorem readValueLoop_encoded_member (d : List Char) :
    ∀ (b : Bool) (lit k : List Char) (ms : List (List Char × JSON)) (its : List JSON)
      (tail : List Char),
      readValueLoop b
          { step := Step.inString,
            stack := [{ ps := ParseState.objectValue, members := ms, key := k, items := its }],
            lit := lit, top := none }
          (d.flatMap escapeChar ++ '"' :: '}' :: tail)
        = .ok (JSON.obj (((k, JSON.str (unquote ((d.flatMap escapeChar).reverse ++ lit).reverse))
            :: ms).reverse)) := by
  induction d with
  | nil =>
    intro b lit k ms its tail
    rfl
  | cons c rest ih =>
    intro b lit k ms its tail
    obtain ⟨b1, h1⟩ := readValueLoop_escapeChar c b
      [{ ps := ParseState.objectValue, members := ms, key := k, items := its }] lit
      (rest.flatMap escapeChar ++ '"' :: '}' :: tail)
    rw [List.flatMap_cons, List.append_assoc, h1, ih]
    simp

/-- Round trip: an error body as a Go server writes it, the object with the
single member `detail` holding the encoding of `d`, decodes to `d`. -/
theorem decode_detail_encoded (d : String) :
    decodeStringField "detail" ("\x7b\"detail\":" ++ String.mk (encodeString d) ++ "\x7d")
      = .ok d := by
  have hscan : readValue ("\x7b\"detail\":" ++ String.mk (encodeString d) ++ "\x7d")
      = .ok (JSON.obj [("detail".toList, JSON.str d.toList)]) := by
    unfold readValue
    have hl : ("\x7b\"detail\":" ++ String.mk (encodeString d) ++ "\x7d").toList
        = "\x7b\"detail\":\"".toList ++ (d.toList.flatMap escapeChar ++ '"' :: '}' :: []) := by
      simp [String.toList, String.data_append, encodeString]
    rw [hl]
    have hpre : ∀ rest : List Char,
        readValueLoop false Scanner.reset ("\x7b\"detail\":\"".toList ++ rest)
          = readValueLoop true
              { step := Step.inString,
                stack := [{ ps := ParseState.objectValue, members := [],
                            key := "detail".toList, items := [] }],
                lit := [], top := none } rest := fun rest => rfl
    rw [hpre, readValueLoop_encoded_member]
    simp only [List.reverse_nil, List.append_nil, List.reverse_reverse, unquote_encoded,
      List.reverse_cons, List.nil_append]
  unfold decodeStringField
  rw [hscan]
  have hk : keyMatches "detail" "detail".toList = true := by decide
  simp only [unmarshalStringField, storeMembers, hk, if_true, storeString]
  rfl

/-- Round trip: the object with the single member `status` holding the
encoding of `st` decodes to `st`. -/
theorem decode_status_encoded (st : String) :
    decodeStringField "status" ("\x7b\"status\":" ++ String.mk (encodeString st) ++ "\x7d")
      = .ok st := by
  have hscan : readValue ("\x7b\"status\":" ++ String.mk (encodeString st) ++ "\x7d")
      = .ok (JSON.obj [("status".toList, JSON.str st.toList)]) := by
    unfold readValue
    have hl : ("\x7b\"status\":" ++ String.mk (encodeString st) ++ "\x7d").toList
        = "\x7b\"status\":\"".toList ++ (st.toList.flatMap escapeChar ++ '"' :: '}' :: []) := by
      simp [String.toList, String.data_append, encodeString]
    rw [hl]
    have hpre : ∀ rest : List Char,
        readValueLoop false Scanner.reset ("\x7b\"status\":\"".toList ++ rest)
          = readValueLoop true
              { step := Step.inString,
                stack := [{ ps := ParseState.objectValue, members := [],
                            key := "status".toList, items := [] }],
                lit := [], top := none } rest := fun rest => rfl
    rw [hpre, readValueLoop_encoded_member]
    simp only [List.reverse_nil, List.append_nil, List.reverse_reverse, unquote_encoded,
      List.reverse_cons, List.nil_append]
  unfold decodeStringField
  rw [hscan]
  have hk : keyMatches "status" "status".toList = true := by decide
  simp only [unmarshalStringField, storeMembers, hk, if_true, storeString]
  rfl

/-- Leading space is skipped by the scanner. -/
theorem readValueLoop_skip_space (sp : List Char) (h : ∀ c ∈ sp, isSpace c = true)
    (rest : List Char) :
    readValueLoop false Scanner.reset (sp ++ rest) = readValueLoop false Scanner.reset rest := by
  induction sp with
  | nil => rfl
  | cons c cs ih =>
    have hc : isSpace c = true := h c (List.mem_cons_self _ _)
    have hfeed : Scanner.feed Scanner.reset c = .ok Scanner.reset := by
      simp [Scanner.feed, Scanner.reset, stateBeginValue, hc]
    rw [List.cons_append, readValueLoop, hfeed]
    simp only [hc, Scanner.reset, Bool.not_true, Bool.or_false]
    exact ih (fun x hx => h x (List.mem_cons_of_mem _ hx))

/-- An empty body, or one that holds only space, gives `io.EOF`, whatever the
struct. -/
theorem decode_blank (name body : String) (h : ∀ c ∈ body.toList, isSpace c = true) :
    decodeStringField name body = .error DecodeError.eof := by
  have h1 := readValueLoop_skip_space body.toList h []
  rw [List.append_nil] at h1
  unfold decodeStringField readValue
  rw [h1]
  rfl

/-- A body whose first character after leading space cannot begin a JSON
value gives a syntax error, whatever the struct. -/
theorem decode_not_json (name body : String) (sp rest : List Char) (c : Char)
    (hbody : body.toList = sp ++ c :: rest) (hsp : ∀ x ∈ sp, isSpace x = true)
    (hc : isSpace c = false ∧ c ≠ '{' ∧ c ≠ '[' ∧ c ≠ '"' ∧ c ≠ '-' ∧ isDigit c = false
      ∧ c ≠ 't' ∧ c ≠ 'f' ∧ c ≠ 'n') :
    decodeStringField name body = .error DecodeError.syntaxError := by
  obtain ⟨h0, h1, h2, h3, h4, h5, h6, h7, h8⟩ := hc
  have hzero : c ≠ '0' := by
    intro hz
    rw [hz] at h5
    exact absurd h5 (by decide)
  have hfeed : Scanner.feed Scanner.reset c = .error DecodeError.syntaxError := by
    simp [Scanner.feed, Scanner.reset, stateBeginValue, h0, h1, h2, h3, h4, h5, h6, h7, h8, hzero]
  unfold decodeStringField readValue
  rw [hbody, readValueLoop_skip_space sp hsp, readValueLoop, hfeed]

/-- A saved type error stays the result of the member loop. -/
theorem storeMembers_saved (name : String) (ms : List (List Char × JSON)) :
    ∀ (cur : String) (e0 : DecodeError), (storeMembers name (cur, some e0) ms).2 = some e0 := by
  induction ms with
  | nil => intro cur e0; rfl
  | cons m rest ih =>
    intro cur e0
    obtain ⟨k, v⟩ := m
    unfold storeMembers
    split
    · split
      · exact ih _ e0
      · exact ih _ e0
    · exact ih _ e0

/-- A member that selects the field and holds neither a string nor `null`
makes the member loop end with a type error. -/
theorem storeMembers_mismatch (name : String) (ms : List (List Char × JSON)) :
    ∀ (cur : String) (saved : Option DecodeError),
      (∃ m ∈ ms, keyMatches name m.1 = true ∧ storableString m.2 = false) →
      ∃ e, (storeMembers name (cur, saved) ms).2 = some e := by
  induction ms with
  | nil =>
    intro cur saved h
    obtain ⟨m, hm, _⟩ := h
    cases hm
  | cons m rest ih =>
    intro cur saved h
    obtain ⟨k, v⟩ := m
    obtain ⟨m1, hm1, hk1, hv1⟩ := h
    rcases List.mem_cons.mp hm1 with heq | hin
    · subst heq
      simp only at hk1 hv1
      unfold storeMembers
      rw [if_pos hk1]
      cases v with
      | null => cases hv1
      | str x => cases hv1
      | bool bb =>
        cases saved with
        | none => exact ⟨_, storeMembers_saved name rest cur _⟩
        | some e0 => exact ⟨_, storeMembers_saved name rest cur e0⟩
      | num lit =>
        cases saved with
        | none => exact ⟨_, storeMembers_saved name rest cur _⟩
        | some e0 => exact ⟨_, storeMembers_saved name rest cur e0⟩
      | arr xs =>
        cases saved with
        | none => exact ⟨_, storeMembers_saved name rest cur _⟩
        | some e0 => exact ⟨_, storeMembers_saved name rest cur e0⟩
      | obj xs =>
        cases saved with
        | none => exact ⟨_, storeMembers_saved name rest cur _⟩
        | some e0 => exact ⟨_, storeMembers_saved name rest cur e0⟩
    · unfold storeMembers
      split
      · split
        · exact ih _ _ ⟨m1, hin, hk1, hv1⟩
        · exact ih _ _ ⟨m1, hin, hk1, hv1⟩
      · exact ih _ _ ⟨m1, hin, hk1, hv1⟩

/-- A body that is a JSON object in which a member for the field holds a value
of the wrong type does not decode. -/
theorem decode_wrong_type (name body : String) (ms : List (List Char × JSON))
    (hscan : readValue body = .ok (JSON.obj ms))
    (h : ∃ m ∈ ms, keyMatches name m.1 = true ∧ storableString m.2 = false) :
    ∃ e, decodeStringField name body = .error e := by
  obtain ⟨e, he⟩ := storeMembers_mismatch name ms "" none h
  unfold decodeStringField
  rw [hscan]
  simp only [unmarshalStringField]
  cases hr : storeMembers name ("", none) ms with
  | mk x sv =>
    rw [hr] at he
    simp only at he
    subst he
    exact ⟨e, rfl⟩

/-- Members whose keys do not select the field leave the field and the saved
error alone. -/
theorem storeMembers_unselected (name : String) (ms : List (List Char × JSON))
    (h : ∀ m ∈ ms, keyMatches name m.1 = false) :
    ∀ acc : String × Option DecodeError, storeMembers name acc ms = acc := by
  induction ms with
  | nil => intro acc; rfl
  | cons m rest ih =>
    intro acc
    obtain ⟨k, v⟩ := m
    obtain ⟨cur, saved⟩ := acc
    have hk : keyMatches name k = false := h (k, v) (List.mem_cons_self _ _)
    unfold storeMembers
    rw [hk]
    simp only [Bool.false_eq_true, if_false]
    exact ih (fun x hx => h x (List.mem_cons_of_mem _ hx)) _

/-- The digit characters of `Nat.digitChar`. -/
theorem digitChar_lt_ten (k : Nat) (hk : k < 10) :
    isDigit (Nat.digitChar k) = true ∧ (Nat.digitChar k).toNat - '0'.toNat = k
    ∧ (k ≠ 0 → Nat.digitChar k ≠ '0') := by
  interval_cases k <;> decide

/-- With enough fuel, `Nat.toDigitsCore` puts the numeral of `n` in front of
what it was given. -/
theorem toDigitsCore_numeral (fuel : Nat) :
    ∀ (n : Nat) (ds : List Char), n < fuel →
      ∃ pre, Nat.toDigitsCore 10 fuel n ds = pre ++ ds ∧ Numeral n pre := by
  induction fuel with
  | zero => intro n ds h; omega
  | succ fuel ih =>
    intro n ds hn
    obtain ⟨hd1, hd2, hd3⟩ := digitChar_lt_ten (n % 10) (Nat.mod_lt _ (by omega))
    unfold Nat.toDigitsCore
    by_cases h0 : n / 10 = 0
    · simp only [h0, if_true]
      have hlt : n < 10 := by omega
      have hmod : n % 10 = n := Nat.mod_eq_of_lt hlt
      refine ⟨[Nat.digitChar (n % 10)], rfl, ?_, ?_, ?_⟩
      · intro c hc
        simp only [List.mem_singleton] at hc
        rw [hc]; exact hd1
      · simp only [List.foldl_cons, List.foldl_nil, hd2]
        omega
      · by_cases hz : n = 0
        · left
          refine ⟨hz, ?_⟩
          rw [hz]; rfl
        · right
          refine ⟨hz, _, [], rfl, hd3 (by omega)⟩
    · simp only [h0, if_false]
      obtain ⟨pre, hpre, hp1, hp2, hp3⟩ := ih (n / 10) (Nat.digitChar (n % 10) :: ds) (by omega)
      refine ⟨pre ++ [Nat.digitChar (n % 10)], by rw [hpre]; simp, ?_, ?_, ?_⟩
      · intro c hc
        rcases List.mem_append.mp hc with hc | hc
        · exact hp1 c hc
        · simp only [List.mem_singleton] at hc
          rw [hc]; exact hd1
      · rw [List.foldl_append, hp2]
        simp only [List.foldl_cons, List.foldl_nil, hd2]
        omega
      · right
        refine ⟨by omega, ?_⟩
        rcases hp3 with ⟨hz, _⟩ | ⟨_, c, r, hcr, hc0⟩
        · exact absurd hz h0
        · exact ⟨c, r ++ [Nat.digitChar (n % 10)], by rw [hcr]; rfl, hc0⟩

/-- The digits `Nat.toDigits 10 n` are the numeral of `n`. -/
theorem toDigits_numeral (n : Nat) : Numeral n (Nat.toDigits 10 n) := by
  obtain ⟨pre, hpre, hp⟩ := toDigitsCore_numeral (n + 1) n [] (by omega)
  unfold Nat.toDigits
  rw [hpre, List.append_nil]
  exact hp

/-- The value of a numeral. -/
theorem digitsVal_numeral (n : Nat) (pre : List Char) (h : Numeral n pre) :
    digitsVal pre = some n := by
  obtain ⟨h1, h2, h3⟩ := h
  have hall : pre.all isDigit = true := List.all_eq_true.mpr h1
  cases pre with
  | nil =>
    rcases h3 with ⟨_, hp⟩ | ⟨_, c, r, hp, _⟩
    · cases hp
    · cases hp
  | cons c r =>
    unfold digitsVal
    simp only [hall, if_true, h2]

/-- A numeral starts with a digit. -/
theorem numeral_head (n : Nat) (pre : List Char) (h : Numeral n pre) :
    ∃ c r, pre = c :: r ∧ isDigit c = true ∧ c ≠ '-' := by
  obtain ⟨h1, _, h3⟩ := h
  have key : ∃ c r, pre = c :: r := by
    rcases h3 with ⟨_, hp⟩ | ⟨_, c, r, hp, _⟩
    · exact ⟨_, _, hp⟩
    · exact ⟨_, _, hp⟩
  obtain ⟨c, r, hp⟩ := key
  have hc : isDigit c = true := h1 c (by rw [hp]; exact List.mem_cons_self _ _)
  refine ⟨c, r, hp, hc, ?_⟩
  intro hm
  rw [hm] at hc
  exact absurd hc (by decide)

/-- The literal of an integer is read back as that integer. -/
theorem bigIntOfLit_intLit (z : Int) : bigIntOfLit (intLit z) = some z := by
  cases z with
  | ofNat n =>
    have hn := toDigits_numeral n
    obtain ⟨c, r, hp, _, hc⟩ := numeral_head n _ hn
    have hv := digitsVal_numeral n _ hn
    have hl : intLit (Int.ofNat n) = c :: r := hp
    rw [hp] at hv
    rw [hl]
    unfold bigIntOfLit
    split
    · next heq =>
      simp only [List.cons.injEq] at heq
      exact absurd heq.1 hc
    · rw [hv]; rfl
  | negSucc n =>
    have hv := digitsVal_numeral (n + 1) _ (toDigits_numeral (n + 1))
    have hl : intLit (Int.negSucc n) = '-' :: Nat.toDigits 10 (n + 1) := rfl
    rw [hl]
    unfold bigIntOfLit
    simp only [hv, Option.map_some']
    rfl

/-- Digits after the first keep the scanner in `state1`. -/
theorem checkValidLoop_digits (r : List Char) (hr : ∀ c ∈ r, isDigit c = true) :
    ∀ (stack : List Frame) (lit rest : List Char),
      checkValidLoop { step := Step.s1, stack := stack, lit := lit, top := none } (r ++ rest)
        = checkValidLoop
            { step := Step.s1, stack := stack, lit := r.reverse ++ lit, top := none } rest := by
  induction r with
  | nil => intro stack lit rest; rfl
  | cons c cs ih =>
    intro stack lit rest
    have hc : isDigit c = true := hr c (List.mem_cons_self _ _)
    rw [List.cons_append, checkValidLoop]
    simp only [Scanner.feed, hc, if_true]
    rw [ih (fun x hx => hr x (List.mem_cons_of_mem _ hx))]
    simp

/-- A digit is none of the other characters the scanner tests for. -/
theorem digit_other (c : Char) (hc : isDigit c = true) :
    isSpace c = false ∧ c ≠ '{' ∧ c ≠ '[' ∧ c ≠ '"' ∧ c ≠ '-' ∧ c ≠ 't' ∧ c ≠ 'f' ∧ c ≠ 'n' := by
  refine ⟨?_, ?_, ?_, ?_, ?_, ?_, ?_, ?_⟩
  · cases hs : isSpace c with
    | false => rfl
    | true =>
      simp only [isSpace, Bool.or_eq_true, decide_eq_true_eq] at hs
      rcases hs with ((h | h) | h) | h <;> (rw [h] at hc; exact absurd hc (by decide))
  all_goals (intro h; rw [h] at hc; exact absurd hc (by decide))

/-- The scanner reads an unsigned numeral, after `stateBeginValue` or after a
minus sign, as the text of a number literal. -/
theorem checkValidLoop_numeral (n : Nat) (pre : List Char) (h : Numeral n pre)
    (stack : List Frame) (rest : List Char) :
    (∀ lit, ∃ st, checkValidLoop
          { step := Step.beginValue, stack := stack, lit := lit, top := none } (pre ++ rest)
        = checkValidLoop { step := st, stack := stack, lit := pre.reverse, top := none } rest
      ∧ (st = Step.s0 ∨ st = Step.s1))
    ∧ (∃ st, checkValidLoop
          { step := Step.neg, stack := stack, lit := ['-'], top := none } (pre ++ rest)
        = checkValidLoop
            { step := st, stack := stack, lit := pre.reverse ++ ['-'], top := none } rest
      ∧ (st = Step.s0 ∨ st = Step.s1)) := by
  obtain ⟨h1, _, h3⟩ := h
  rcases h3 with ⟨_, hp⟩ | ⟨_, c, r, hp, hc0⟩
  · subst hp
    exact ⟨fun lit => ⟨Step.s0, rfl, Or.inl rfl⟩, ⟨Step.s0, rfl, Or.inl rfl⟩⟩
  · subst hp
    have hc : isDigit c = true := h1 c (List.mem_cons_self _ _)
    have hr : ∀ x ∈ r, isDigit x = true := fun x hx => h1 x (List.mem_cons_of_mem _ hx)
    obtain ⟨o1, o2, o3, o4, o5, o6, o7, o8⟩ := digit_other c hc
    constructor
    · intro lit
      refine ⟨Step.s1, ?_, Or.inr rfl⟩
      rw [List.cons_append, checkValidLoop]
      simp only [Scanner.feed, stateBeginValue, o1, o2, o3, o4, o5, o6, o7, o8, hc0, hc,
        if_true, if_false, Bool.false_eq_true]
      rw [checkValidLoop_digits r hr]
      simp
    · refine ⟨Step.s1, ?_, Or.inr rfl⟩
      rw [List.cons_append, checkValidLoop]
      simp only [Scanner.feed, hc0, hc, if_true, if_false]
      rw [checkValidLoop_digits r hr]
      simp

/-- The scanner reads the literal of an integer, as the value of a member of
an object, and the comma or closing brace after it. -/
theorem checkValidLoop_intLit (z : Int) (fr : Frame) (stack : List Frame) (lit rest : List Char)
    (t : Char) (ht : t = ',' ∨ t = '}') :
    checkValidLoop { step := Step.beginValue, stack := fr :: stack, lit := lit, top := none }
        (intLit z ++ t :: rest)
      = match endNumber { step := Step.s0, stack := fr :: stack, lit := (intLit z).reverse,
                          top := none } t with
        | .error err => .error err
        | .ok s1 => checkValidLoop s1 rest := by
  have hterm : ∀ (st : Step) (l : List Char), (st = Step.s0 ∨ st = Step.s1) →
      checkValidLoop { step := st, stack := fr :: stack, lit := l, top := none } (t :: rest)
        = match endNumber { step := Step.s0, stack := fr :: stack, lit := l, top := none } t with
          | .error err => .error err
          | .ok s1 => checkValidLoop s1 rest := by
    intro st l hst
    have hf : Scanner.feed { step := st, stack := fr :: stack, lit := l, top := none } t
        = endNumber { step := Step.s0, stack := fr :: stack, lit := l, top := none } t := by
      rcases hst with rfl | rfl <;> rcases ht with rfl | rfl <;> rfl
    rw [checkValidLoop, hf]
  cases z with
  | ofNat n =>
    obtain ⟨st, h1, hst⟩ := (checkValidLoop_numeral n _ (toDigits_numeral n) (fr :: stack)
      (t :: rest)).1 lit
    have hl : intLit (Int.ofNat n) = Nat.toDigits 10 n := rfl
    rw [hl, h1, hterm st _ hst]
  | negSucc n =>
    obtain ⟨st, h1, hst⟩ := (checkValidLoop_numeral (n + 1) _ (toDigits_numeral (n + 1))
      (fr :: stack) (t :: rest)).2
    have hl : intLit (Int.negSucc n) = '-' :: Nat.toDigits 10 (n + 1) := rfl
    have hfeed : checkValidLoop
          { step := Step.beginValue, stack := fr :: stack, lit := lit, top := none }
          (('-' :: Nat.toDigits 10 (n + 1)) ++ t :: rest)
        = checkValidLoop { step := Step.neg, stack := fr :: stack, lit := ['-'], top := none }
            (Nat.toDigits 10 (n + 1) ++ t :: rest) := rfl
    rw [hl, hfeed, h1, hterm st _ hst]
    simp

/-- The scanner reads the key text of `x`, `y`, `d` as the object with the
three members `X`, `Y`, `D`. -/
theorem checkValid_keyText (x y d : Int) :
    checkValid (keyText x y d)
      = .ok (JSON.obj [("X".toList, JSON.num (intLit x)), ("Y".toList, JSON.num (intLit y)),
          ("D".toList, JSON.num (intLit d))]) := by
  have e1 : ∀ rest : List Char,
      checkValidLoop Scanner.reset ("\x7b\"X\":".toList ++ rest)
        = checkValidLoop
            { step := Step.beginValue,
              stack := [{ ps := ParseState.objectValue, members := [], key := "X".toList,
                          items := [] }],
              lit := [], top := none } rest := fun _ => rfl
  have e2 : ∀ (ms : List (List Char × JSON)) (k : List Char) (rest : List Char),
      checkValidLoop
          { step := Step.beginString,
            stack := [{ ps := ParseState.objectKey, members := ms, key := k, items := [] }],
            lit := [], top := none } ("\"Y\":".toList ++ rest)
        = checkValidLoop
            { step := Step.beginValue,
              stack := [{ ps := ParseState.objectValue, members := ms, key := "Y".toList,
                          items := [] }],
              lit := [], top := none } rest := fun _ _ _ => rfl
  have e3 : ∀ (ms : List (List Char × JSON)) (k : List Char) (rest : List Char),
      checkValidLoop
          { step := Step.beginString,
            stack := [{ ps := ParseState.objectKey, members := ms, key := k, items := [] }],
            lit := [], top := none } ("\"D\":".toList ++ rest)
        = checkValidLoop
            { step := Step.beginValue,
              stack := [{ ps := ParseState.objectValue, members := ms, key := "D".toList,
                          items := [] }],
              lit := [], top := none } rest := fun _ _ _ => rfl
  have hloop : checkValidLoop Scanner.reset (keyText x y d).toList
      = .ok { step := Step.endTop, stack := [], lit := [],
              top := some (JSON.obj [("X".toList, JSON.num (intLit x)),
                ("Y".toList, JSON.num (intLit y)), ("D".toList, JSON.num (intLit d))]) } := by
    have hk : (keyText x y d).toList
        = "\x7b\"X\":".toList ++ (intLit x ++ ',' :: ("\"Y\":".toList ++ (intLit y ++ ',' ::
            ("\"D\":".toList ++ (intLit d ++ ['}']))))) := rfl
    rw [hk, e1, checkValidLoop_intLit x _ _ _ _ ',' (Or.inl rfl)]
    simp only [endNumber, Scanner.finish, stateEndValue, isSpace, List.reverse_reverse]
    simp only [Char.reduceEq, decide_False, Bool.or_self, Bool.false_eq_true, if_false, if_true]
    rw [e2, checkValidLoop_intLit y _ _ _ _ ',' (Or.inl rfl)]
    simp only [endNumber, Scanner.finish, stateEndValue, isSpace, List.reverse_reverse]
    simp only [Char.reduceEq, decide_False, Bool.or_self, Bool.false_eq_true, if_false, if_true]
    rw [e3, checkValidLoop_intLit d _ _ _ _ '}' (Or.inr rfl)]
    simp only [endNumber, Scanner.finish, stateEndValue, isSpace, List.reverse_reverse]
    simp only [Char.reduceEq, decide_False, Bool.or_self, Bool.false_eq_true, if_false, if_true]
    rfl
  unfold checkValid
  rw [hloop]
  rfl

/-- The key text of `x`, `y`, `d` unmarshals to exactly these three values. -/
theorem unmarshalReg_keyText (x y d : Int) :
    unmarshalReg (keyText x y d) = .ok { X := some x, Y := some y, D := some d } := by
  unfold unmarshalReg
  rw [checkValid_keyText]
  have hX : keyMatches "X" "X".toList = true := by decide
  have hY1 : keyMatches "X" "Y".toList = false := by decide
  have hY2 : keyMatches "Y" "Y".toList = true := by decide
  have hD1 : keyMatches "X" "D".toList = false := by decide
  have hD2 : keyMatches "Y" "D".toList = false := by decide
  have hD3 : keyMatches "D" "D".toList = true := by decide
  simp only [storeReg, hX, hY1, hY2, hD1, hD2, hD3, storeBigInt, bigIntOfLit_intLit,
    if_true, if_false, Bool.false_eq_true]

/-- A key selects at most one of two fields whose folded names differ. -/
theorem keyMatches_exclusive (a b : String) (k : List Char)
    (hab : a.toList.map foldChar ≠ b.toList.map foldChar) (ha : keyMatches a k = true) :
    keyMatches b k = false := by
  cases hb : keyMatches b k with
  | false => rfl
  | true =>
    have h1 := map_fold_of_keyMatches a k ha
    have h2 := map_fold_of_keyMatches b k hb
    rw [h1] at h2
    exact absurd h2 hab

/-- One step of the member loop. -/
theorem storeReg_cons (reg : Reg) (k : List Char) (v : JSON) (rest : List (List Char × JSON)) :
    storeReg reg ((k, v) :: rest)
      = if keyMatches "X" k then
          match storeBigInt reg.X v with
          | .ok x => storeReg { reg with X := x } rest
          | .error err => .error err
        else if keyMatches "Y" k then
          match storeBigInt reg.Y v with
          | .ok y => storeReg { reg with Y := y } rest
          | .error err => .error err
        else if keyMatches "D" k then
          match storeBigInt reg.D v with
          | .ok d => storeReg { reg with D := d } rest
          | .error err => .error err
        else storeReg reg rest := by
  rw [storeReg]

/-- The member loop over a list in two parts is the loop over the first part
followed, when that went well, by the loop over the second. -/
theorem storeReg_append (a b : List (List Char × JSON)) :
    ∀ reg : Reg, storeReg reg (a ++ b)
      = match storeReg reg a with
        | .ok r => storeReg r b
        | .error err => .error err := by
  induction a with
  | nil => intro reg; rfl
  | cons m rest ih =>
    intro reg
    obtain ⟨k, v⟩ := m
    rw [List.cons_append, storeReg_cons reg k v (rest ++ b), storeReg_cons reg k v rest]
    split
    · split
      · exact ih _
      · rfl
    · split
      · split
        · exact ih _
        · rfl
      · split
        · split
          · exact ih _
          · rfl
        · exact ih _

/-- After the member loop, each field holds the integer of the last member
that selects it. -/
theorem storeReg_last (ms : List (List Char × JSON)) (reg out : Reg)
    (h : storeReg reg ms = .ok out) :
    (∀ x : Int, (∃ pre k lit post, ms = pre ++ (k, JSON.num lit) :: post
        ∧ keyMatches "X" k = true ∧ bigIntOfLit lit = some x
        ∧ ∀ m ∈ post, keyMatches "X" m.1 = false) → out.X = some x)
    ∧ (∀ y : Int, (∃ pre k lit post, ms = pre ++ (k, JSON.num lit) :: post
        ∧ keyMatches "Y" k = true ∧ bigIntOfLit lit = some y
        ∧ ∀ m ∈ post, keyMatches "Y" m.1 = false) → out.Y = some y)
    ∧ (∀ d : Int, (∃ pre k lit post, ms = pre ++ (k, JSON.num lit) :: post
        ∧ keyMatches "D" k = true ∧ bigIntOfLit lit = some d
        ∧ ∀ m ∈ post, keyMatches "D" m.1 = false) → out.D = some d) := by
  have hstep : ∀ (pre post : List (List Char × JSON)) (k lit : List Char),
      ms = pre ++ (k, JSON.num lit) :: post →
      ∃ r1, storeReg r1 ((k, JSON.num lit) :: post) = .ok out := by
    intro pre post k lit hms
    rw [hms, storeReg_append] at h
    cases hp : storeReg reg pre with
    | error err => rw [hp] at h; cases h
    | ok r1 => rw [hp] at h; exact ⟨r1, h⟩
  refine ⟨?_, ?_, ?_⟩
  · rintro x ⟨pre, k, lit, post, hms, hk, hlit, hpost⟩
    obtain ⟨r1, h1⟩ := hstep pre post k lit hms
    unfold storeReg at h1
    simp only [hk, if_true, storeBigInt, hlit] at h1
    rw [(storeReg_untouched post _ out h1).1 hpost]
  · rintro y ⟨pre, k, lit, post, hms, hk, hlit, hpost⟩
    obtain ⟨r1, h1⟩ := hstep pre post k lit hms
    have hx : keyMatches "X" k = false := keyMatches_exclusive "Y" "X" k (by decide) hk
    unfold storeReg at h1
    simp only [hx, hk, if_true, if_false, Bool.false_eq_true, storeBigInt, hlit] at h1
    rw [(storeReg_untouched post _ out h1).2.1 hpost]
  · rintro d ⟨pre, k, lit, post, hms, hk, hlit, hpost⟩
    obtain ⟨r1, h1⟩ := hstep pre post k lit hms
    have hx : keyMatches "X" k = false := keyMatches_exclusive "D" "X" k (by decide) hk
    have hy : keyMatches "Y" k = false := keyMatches_exclusive "D" "Y" k (by decide) hk
    unfold storeReg at h1
    simp only [hx, hy, hk, if_true, if_false, Bool.false_eq_true, storeBigInt, hlit] at h1
    rw [(storeReg_untouched post _ out h1).2.2 hpost]

/-! ## The claims -/

/-- C1 (evaluation of the code): the payload `disableAuthz` marshals and hands
to the signer is `{"resource":"authz","Status":"deactivated"}`, with the key
`Status` in upper case, because the struct tag of the field reads `jsom`; it is
not the object `{"resource":"authz","status":"deactivated"}`.  The second part
runs `disableAuthz` once and shows the payload in the request that was
posted. -/
theorem C1_payload_key_is_Status :
    jsonMarshal deactivation = .ok "\x7b\"resource\":\"authz\",\"Status\":\"deactivated\"\x7d"
    ∧ jsonMarshal deactivation ≠ .ok "\x7b\"resource\":\"authz\",\"status\":\"deactivated\"\x7d"
    ∧ (sampleClient.disableAuthz
          (constEnv (plainResponse 200 "\x7b\"status\":\"valid\"\x7d") "sig")
          "https://acme.example/authz/1" []).2
        = [Event.issued "0",
           Event.post "https://acme.example/authz/1" "application/jose+json"
             { payload := "\x7b\"resource\":\"authz\",\"Status\":\"deactivated\"\x7d",
               header := { alg := SignatureAlgorithm.ES256,
                           jwk := { X := some 1, Y := some 2, Curve := Curve.P256 },
                           nonce := "0" },
               signature := "sig" },
           Event.close 1] := by
  refine ⟨by decide, by decide, by decide⟩

/-- C2: when the POST gets a response with status code at least 400 whose body
decodes with `detail` equal to `d`, `disableAuthz` returns the error
`errors.New(d)`: its text is `d`, it is not nil and it is not `ErrPending`.
In particular this is so when the body is the object with the single member
`detail` that holds the JSON encoding of `d`. -/
theorem C2_error_branch (env : Env) (c : client) (url b : String)
    (w w1 : World) (signed : JsonWebSignature) (resp : Response)
    (hb : jsonMarshal deactivation = .ok b)
    (hsign : c.signer.Sign env b w = (.ok signed, w1))
    (hpost : env.httpPost w1 url joseJSON signed = .ok resp)
    (hstatus : resp.StatusCode ≥ 400) :
    (∀ d : String, decodeStringField "detail" resp.Body = .ok d →
      (c.disableAuthz env url w).1 = some (GoError.new d)
      ∧ (GoError.new d).Error = some d
      ∧ (c.disableAuthz env url w).1 ≠ none
      ∧ (c.disableAuthz env url w).1 ≠ some GoError.ErrPending)
    ∧ (∀ d : String,
        resp.Body = "\x7b\"detail\":" ++ String.mk (encodeString d) ++ "\x7d" →
        (c.disableAuthz env url w).1 = some (GoError.new d)) := by
  have h := disableAuthz_of_response env c url b w w1 signed resp hb hsign hpost
  have hc : ∀ d : String, decodeStringField "detail" resp.Body = .ok d →
      classify resp = some (GoError.new d) := by
    intro d hbody
    unfold classify
    rw [if_pos hstatus, hbody]
  constructor
  · intro d hbody
    rw [h, hc d hbody]
    refine ⟨rfl, rfl, by simp, by simp⟩
  · intro d hbody
    rw [h]
    apply hc
    rw [hbody]
    exact decode_detail_encoded d

/-- C2, the row `400 | {"detail":"malformed request"}` of the table: the
result is the error with text `malformed request`. -/
theorem C2_error_branch_witness :
    (sampleClient.disableAuthz
        (constEnv (plainResponse 400 "\x7b\"detail\":\"malformed request\"\x7d") "sig")
        "https://acme.example/authz/1" []).1 = some (GoError.new "malformed request")
    ∧ (GoError.new "malformed request").Error = some "malformed request"
    ∧ (sampleClient.disableAuthz
        (constEnv (plainResponse 400 "\x7b\"detail\":\"malformed request\"\x7d") "sig")
        "https://acme.example/authz/1" []).1 ≠ none
    ∧ (sampleClient.disableAuthz
        (constEnv (plainResponse 400 "\x7b\"detail\":\"malformed request\"\x7d") "sig")
        "https://acme.example/authz/1" []).1 ≠ some GoError.ErrPending :=
  (C2_error_branch (constEnv (plainResponse 400 "\x7b\"detail\":\"malformed request\"\x7d") "sig")
    sampleClient "https://acme.example/authz/1" _ [] _ _ _
    jsonMarshal_deactivation (sampleClient_sign _ _) rfl (by decide)).1
    "malformed request" (by decide)

/-- C3: when the POST gets a response with status code below 400 whose body
decodes with `status` equal to `st`, `disableAuthz` returns `ErrPending` if
and only if `st` is `pending`, and nil otherwise.  In particular this is so
when the body is the object with the single member `status` that holds the
JSON encoding of `st`, and the result is nil when the body is an object
without a member for `status`. -/
theorem C3_non_error_branch (env : Env) (c : client) (url b : String)
    (w w1 : World) (signed : JsonWebSignature) (resp : Response)
    (hb : jsonMarshal deactivation = .ok b)
    (hsign : c.signer.Sign env b w = (.ok signed, w1))
    (hpost : env.httpPost w1 url joseJSON signed = .ok resp)
    (hstatus : resp.StatusCode < 400) :
    (∀ st : String, decodeStringField "status" resp.Body = .ok st →
      ((c.disableAuthz env url w).1 = some GoError.ErrPending ↔ st = "pending")
      ∧ ((c.disableAuthz env url w).1 = none ↔ st ≠ "pending"))
    ∧ (∀ st : String,
        resp.Body = "\x7b\"status\":" ++ String.mk (encodeString st) ++ "\x7d" →
        (c.disableAuthz env url w).1
          = if st = "pending" then some GoError.ErrPending else none)
    ∧ (∀ ms, readValue resp.Body = .ok (JSON.obj ms) →
        (∀ m ∈ ms, keyMatches "status" m.1 = false) →
        (c.disableAuthz env url w).1 = none) := by
  have h := disableAuthz_of_response env c url b w w1 signed resp hb hsign hpost
  have hc : ∀ st : String, decodeStringField "status" resp.Body = .ok st →
      classify resp = if st = "pending" then some GoError.ErrPending else none := by
    intro st hbody
    unfold classify
    rw [if_neg (by omega), hbody]
  refine ⟨?_, ?_, ?_⟩
  · intro st hbody
    rw [h, hc st hbody]
    by_cases hp : st = "pending"
    · simp [hp]
    · simp [hp]
  · intro st hbody
    rw [h]
    apply hc
    rw [hbody]
    exact decode_status_encoded st
  · intro ms hscan hkeys
    have hd : decodeStringField "status" resp.Body = .ok "" := by
      unfold decodeStringField
      rw [hscan]
      simp only [unmarshalStringField, storeMembers_unselected "status" ms hkeys]
    rw [h, hc "" hd]
    rfl

/-- C3, the three rows of the table with status 200: `{"status":"valid"}`
gives nil, `{"status":"pending"}` gives `ErrPending`, and `{}` gives nil. -/
theorem C3_non_error_branch_witness :
    (sampleClient.disableAuthz (constEnv (plainResponse 200 "\x7b\"status\":\"valid\"\x7d") "sig")
        "https://acme.example/authz/1" []).1 = none
    ∧ (sampleClient.disableAuthz (constEnv (plainResponse 200 "\x7b\"status\":\"pending\"\x7d") "sig")
        "https://acme.example/authz/1" []).1 = some GoError.ErrPending
    ∧ (sampleClient.disableAuthz (constEnv (plainResponse 200 "\x7b\x7d") "sig")
        "https://acme.example/authz/1" []).1 = none :=
  ⟨((C3_non_error_branch (constEnv (plainResponse 200 "\x7b\"status\":\"valid\"\x7d") "sig")
      sampleClient "https://acme.example/authz/1" _ [] _ _ _
      jsonMarshal_deactivation (sampleClient_sign _ _) rfl (by decide)).1
      "valid" (by decide)).2.mpr (by decide),
   ((C3_non_error_branch (constEnv (plainResponse 200 "\x7b\"status\":\"pending\"\x7d") "sig")
      sampleClient "https://acme.example/authz/1" _ [] _ _ _
      jsonMarshal_deactivation (sampleClient_sign _ _) rfl (by decide)).1
      "pending" (by decide)).1.mpr rfl,
   (C3_non_error_branch (constEnv (plainResponse 200 "\x7b\x7d") "sig")
      sampleClient "https://acme.example/authz/1" _ [] _ _ _
      jsonMarshal_deactivation (sampleClient_sign _ _) rfl (by decide)).2.2
      [] rfl (by intro m hm; cases hm)⟩

/-- C4: when the POST gets a response whose body does not decode into the
struct of its branch (`detail` for a status code of at least 400, `status`
below 400) and the decoder reports `e`, `disableAuthz` returns that decode
error: it returns neither nil, nor `ErrPending`, nor an error made by
`errors.New`.  On both branches this is the case for a body that is empty or
blank (`io.EOF`), for a body that does not start like a JSON value (syntax
error), and for an object in which a member for the field of the branch holds
a value that is neither a string nor `null`. -/
theorem C4_parse_failure (env : Env) (c : client) (url b : String)
    (w w1 : World) (signed : JsonWebSignature) (resp : Response)
    (hb : jsonMarshal deactivation = .ok b)
    (hsign : c.signer.Sign env b w = (.ok signed, w1))
    (hpost : env.httpPost w1 url joseJSON signed = .ok resp) :
    (∀ e : DecodeError,
      ((resp.StatusCode ≥ 400 ∧ decodeStringField "detail" resp.Body = .error e)
        ∨ (resp.StatusCode < 400 ∧ decodeStringField "status" resp.Body = .error e)) →
      (c.disableAuthz env url w).1 = some (GoError.json e)
      ∧ (c.disableAuthz env url w).1 ≠ none
      ∧ (c.disableAuthz env url w).1 ≠ some GoError.ErrPending
      ∧ ∀ d : String, (c.disableAuthz env url w).1 ≠ some (GoError.new d))
    ∧ ((∀ ch ∈ resp.Body.toList, isSpace ch = true) →
      (c.disableAuthz env url w).1 = some (GoError.json DecodeError.eof))
    ∧ (∀ (sp rest : List Char) (ch : Char), resp.Body.toList = sp ++ ch :: rest →
      (∀ x ∈ sp, isSpace x = true) →
      (isSpace ch = false ∧ ch ≠ '{' ∧ ch ≠ '[' ∧ ch ≠ '"' ∧ ch ≠ '-' ∧ isDigit ch = false
        ∧ ch ≠ 't' ∧ ch ≠ 'f' ∧ ch ≠ 'n') →
      (c.disableAuthz env url w).1 = some (GoError.json DecodeError.syntaxError))
    ∧ (∀ ms, readValue resp.Body = .ok (JSON.obj ms) →
      (∃ m ∈ ms, keyMatches (fieldOfStatus resp.StatusCode) m.1 = true
        ∧ storableString m.2 = false) →
      ∃ e, (c.disableAuthz env url w).1 = some (GoError.json e)) := by
  have h := disableAuthz_of_response env c url b w w1 signed resp hb hsign hpost
  have hc : ∀ e : DecodeError,
      decodeStringField (fieldOfStatus resp.StatusCode) resp.Body = .error e →
      classify resp = some (GoError.json e) := by
    intro e hbody
    unfold classify
    unfold fieldOfStatus at hbody
    by_cases hs : resp.StatusCode ≥ 400
    · rw [if_pos hs] at hbody
      rw [if_pos hs, hbody]
    · rw [if_neg hs] at hbody
      rw [if_neg hs, hbody]
  rw [h]
  refine ⟨?_, ?_, ?_, ?_⟩
  · intro e hbody
    have hf : decodeStringField (fieldOfStatus resp.StatusCode) resp.Body = .error e := by
      unfold fieldOfStatus
      rcases hbody with ⟨hs, hd⟩ | ⟨hs, hd⟩
      · rw [if_pos hs]; exact hd
      · rw [if_neg (by omega)]; exact hd
    rw [hc e hf]
    refine ⟨rfl, by simp, by simp, fun d => by simp⟩
  · intro hblank
    exact hc _ (decode_blank _ _ hblank)
  · intro sp rest ch hbody hsp hch
    exact hc _ (decode_not_json _ _ sp rest ch hbody hsp hch)
  · intro ms hscan hm
    obtain ⟨e, he⟩ := decode_wrong_type _ _ ms hscan hm
    exact ⟨e, hc e he⟩

/-- C4, the row `500 | non-JSON body` of the table, an empty body, and a
`status` of the wrong type below 400: all give the decode error. -/
theorem C4_parse_failure_witness :
    (sampleClient.disableAuthz (constEnv (plainResponse 500 "<html>Bad Gateway</html>") "sig")
        "https://acme.example/authz/1" []).1 = some (GoError.json DecodeError.syntaxError)
    ∧ (sampleClient.disableAuthz (constEnv (plainResponse 200 "") "sig")
        "https://acme.example/authz/1" []).1 = some (GoError.json DecodeError.eof)
    ∧ (sampleClient.disableAuthz (constEnv (plainResponse 200 "\x7b\"status\":5\x7d") "sig")
        "https://acme.example/authz/1" []).1
        = some (GoError.json (DecodeError.unmarshalType "number")) :=
  ⟨((C4_parse_failure (constEnv (plainResponse 500 "<html>Bad Gateway</html>") "sig")
      sampleClient "https://acme.example/authz/1" _ [] _ _ _
      jsonMarshal_deactivation (sampleClient_sign _ _) rfl).1 DecodeError.syntaxError
      (Or.inl ⟨by decide, by decide⟩)).1,
   (C4_parse_failure (constEnv (plainResponse 200 "") "sig")
      sampleClient "https://acme.example/authz/1" _ [] _ _ _
      jsonMarshal_deactivation (sampleClient_sign _ _) rfl).2.1
      (by intro ch hch; cases hch),
   ((C4_parse_failure (constEnv (plainResponse 200 "\x7b\"status\":5\x7d") "sig")
      sampleClient "https://acme.example/authz/1" _ [] _ _ _
      jsonMarshal_deactivation (sampleClient_sign _ _) rfl).1
      (DecodeError.unmarshalType "number") (Or.inr ⟨by decide, by decide⟩)).1⟩

/-- C5: when the GET gets a response, `directory.Nonce` returns without error
exactly when the status code lies in [200,299] and the `Replay-Nonce` header
is not empty, and then the nonce it returns is the header value; the status
test `s/100 != 2` of the code passes exactly the integers `200 ≤ s ≤ 299`. -/
theorem C5_nonce_success (env : Env) (d : directory) (w : World) (resp : Response)
    (hget : env.httpGet w d = .ok resp) :
    (200 ≤ resp.StatusCode ∧ resp.StatusCode ≤ 299 ∧ resp.Header.Get "Replay-Nonce" ≠ ""
      → (directory.Nonce env d w).1 = (resp.Header.Get "Replay-Nonce", none))
    ∧ ((directory.Nonce env d w).1.2 = none
      ↔ 200 ≤ resp.StatusCode ∧ resp.StatusCode ≤ 299 ∧ resp.Header.Get "Replay-Nonce" ≠ "")
    ∧ ∀ s : Int, (¬ s.tdiv 100 ≠ 2) ↔ (200 ≤ s ∧ s ≤ 299) := by
  have hs := tdiv_hundred_eq_two resp.StatusCode
  refine ⟨?_, ?_, fun s => by rw [not_not]; exact tdiv_hundred_eq_two s⟩
  · rintro ⟨h1, h2, h3⟩
    have h4 : resp.StatusCode.tdiv 100 = 2 := hs.mpr ⟨h1, h2⟩
    simp [directory.Nonce, hget, h4, h3]
  · by_cases h4 : resp.StatusCode.tdiv 100 = 2
    · have h5 := hs.mp h4
      by_cases h3 : resp.Header.Get "Replay-Nonce" = ""
      · simp [directory.Nonce, hget, h4, h3]
      · simp [directory.Nonce, hget, h4, h3, h5.1, h5.2]
    · have h5 : ¬ (200 ≤ resp.StatusCode ∧ resp.StatusCode ≤ 299) := fun h => h4 (hs.mpr h)
      simp only [directory.Nonce, hget, ne_eq, h4, not_false_eq_true, if_true]
      constructor
      · intro h; cases h
      · rintro ⟨h1, h2, _⟩; exact absurd ⟨h1, h2⟩ h5

/-- C5 at a response with status 204 and header `Replay-Nonce: abc`: the
nonce is `abc` and there is no error. -/
theorem C5_nonce_success_witness :
    (directory.Nonce
        (constEnv (nonceResponse 204 "abc") "")
        staging []).1 = ("abc", none) :=
  (C5_nonce_success
      (constEnv (nonceResponse 204 "abc") "")
      staging [] _ rfl).1 ⟨by decide, by decide, by decide⟩

/-- C6: `directory.Nonce` returns `ErrNoNonce` if and only if the GET got a
response whose status code is outside [200,299] or whose `Replay-Nonce`
header is absent or starts with an empty value, and the nonce is then the
empty string; when the GET gets no response, the result is the empty string
and the transport error, which is not `ErrNoNonce`. -/
theorem C6_nonce_failure (env : Env) (d : directory) (w : World) :
    ((directory.Nonce env d w).1.2 = some GoError.ErrNoNonce
      ↔ ∃ resp, env.httpGet w d = .ok resp
          ∧ (¬ (200 ≤ resp.StatusCode ∧ resp.StatusCode ≤ 299)
              ∨ resp.Header "Replay-Nonce" = []
              ∨ ∃ rest, resp.Header "Replay-Nonce" = "" :: rest))
    ∧ ((directory.Nonce env d w).1.2 = some GoError.ErrNoNonce
      → (directory.Nonce env d w).1.1 = "")
    ∧ (∀ cause, env.httpGet w d = .error cause
      → (directory.Nonce env d w).1 = ("", some (GoError.transport cause))
        ∧ GoError.transport cause ≠ GoError.ErrNoNonce) := by
  have hget : ∀ h : Header, h.Get "Replay-Nonce" = ""
      ↔ (h "Replay-Nonce" = [] ∨ ∃ rest, h "Replay-Nonce" = "" :: rest) := by
    intro h
    unfold Header.Get
    cases hh : h "Replay-Nonce" with
    | nil => simp
    | cons v rest =>
      constructor
      · intro hv
        simp only at hv
        exact Or.inr ⟨rest, by rw [hv]⟩
      · rintro (h1 | ⟨r, h1⟩)
        · cases h1
        · simp only [List.cons.injEq] at h1
          exact h1.1
  cases hg : env.httpGet w d with
  | error cause =>
    refine ⟨?_, ?_, ?_⟩
    · simp [directory.Nonce, hg]
    · simp [directory.Nonce, hg]
    · intro cause1 h1
      cases h1
      simp [directory.Nonce, hg]
  | ok resp =>
    have hs := tdiv_hundred_eq_two resp.StatusCode
    have hh := hget resp.Header
    refine ⟨?_, ?_, ?_⟩
    · by_cases h4 : resp.StatusCode.tdiv 100 = 2
      · have h5 := hs.mp h4
        by_cases h3 : resp.Header.Get "Replay-Nonce" = ""
        · simp only [directory.Nonce, hg, ne_eq, h4, not_true_eq_false, if_false, h3, if_true,
            true_iff]
          exact ⟨resp, rfl, Or.inr (hh.mp h3)⟩
        · simp only [directory.Nonce, hg, ne_eq, h4, not_true_eq_false, if_false, h3]
          constructor
          · intro h6
            cases h6
          · rintro ⟨r, hr, h6⟩
            cases hr
            rcases h6 with h6 | h6
            · exact absurd h5 h6
            · exact absurd (hh.mpr h6) h3
      · simp only [directory.Nonce, hg, ne_eq, h4, not_false_eq_true, if_true, true_iff]
        exact ⟨resp, rfl, Or.inl (fun h => h4 (hs.mpr h))⟩
    · by_cases h4 : resp.StatusCode.tdiv 100 = 2
      · by_cases h3 : resp.Header.Get "Replay-Nonce" = ""
        · simp [directory.Nonce, hg, h4, h3]
        · simp [directory.Nonce, hg, h4, h3]
      · simp [directory.Nonce, hg, h4]
    · intro cause h1
      cases h1

/-- C6 at three responses and at a failed GET: status 404 with a nonce header,
status 200 without the header and status 200 with an empty header all give
`ErrNoNonce` and the empty string; a GET without response gives the transport
error. -/
theorem C6_nonce_failure_witness :
    (directory.Nonce
        (constEnv (nonceResponse 404 "abc") "")
        production []).1 = ("", some GoError.ErrNoNonce)
    ∧ (directory.Nonce (constEnv (plainResponse 200 "") "") production []).1
        = ("", some GoError.ErrNoNonce)
    ∧ (directory.Nonce
        (constEnv (nonceResponse 200 "") "")
        production []).1 = ("", some GoError.ErrNoNonce)
    ∧ (directory.Nonce (offlineEnv "dial tcp: connection refused") production []).1
        = ("", some (GoError.transport "dial tcp: connection refused")) :=
  ⟨Prod.ext
      ((C6_nonce_failure (constEnv (nonceResponse 404 "abc") "") production []).2.1 (by decide))
      (by decide),
   by decide, by decide,
   ((C6_nonce_failure (offlineEnv "dial tcp: connection refused") production []).2.2
      "dial tcp: connection refused" rfl).1⟩

/-- C10: whenever the POST got a response, the world after `disableAuthz` is
the world at the POST followed by exactly one more event, the `Close` of that
response's body, whatever the classification returns (an `errors.New` error,
a decode error, `ErrPending` or nil): the body is closed in the final state. -/
theorem C10_body_closed (env : Env) (c : client) (url b : String)
    (w w1 : World) (signed : JsonWebSignature) (resp : Response)
    (hb : jsonMarshal deactivation = .ok b)
    (hsign : c.signer.Sign env b w = (.ok signed, w1))
    (hpost : env.httpPost w1 url joseJSON signed = .ok resp) :
    (c.disableAuthz env url w).2
        = (w1 ++ [Event.post url joseJSON signed]) ++ [Event.close w1.length]
    ∧ (c.disableAuthz env url w).2.get? w1.length = some (Event.post url joseJSON signed)
    ∧ bodyClosed (c.disableAuthz env url w).2 w1.length = true
    ∧ (c.disableAuthz env url w).1 = classify resp
    ∧ ((∃ d, classify resp = some (GoError.new d)) ∨ (∃ e, classify resp = some (GoError.json e))
        ∨ classify resp = some GoError.ErrPending ∨ classify resp = none) := by
  have h := disableAuthz_of_response env c url b w w1 signed resp hb hsign hpost
  rw [h]
  refine ⟨rfl, ?_, ?_, rfl, ?_⟩
  · rw [List.append_assoc, List.get?_eq_getElem?, List.getElem?_append_right (le_refl _)]
    simp
  · simp [bodyClosed]
  · unfold classify
    split
    · split
      · exact Or.inr (Or.inl ⟨_, rfl⟩)
      · exact Or.inl ⟨_, rfl⟩
    · split
      · exact Or.inr (Or.inl ⟨_, rfl⟩)
      · split
        · exact Or.inr (Or.inr (Or.inl rfl))
        · exact Or.inr (Or.inr (Or.inr rfl))

/-- C10 at a response whose body fails to decode (status 500, not JSON): the
trace ends with the `Close` of the response body. -/
theorem C10_body_closed_witness :
    (sampleClient.disableAuthz (constEnv (plainResponse 500 "<html>Bad Gateway</html>") "sig")
        "https://acme.example/authz/1" []).2
      = [Event.issued "0",
         Event.post "https://acme.example/authz/1" joseJSON (sampleSigned "0" "sig"),
         Event.close 1]
    ∧ bodyClosed (sampleClient.disableAuthz
        (constEnv (plainResponse 500 "<html>Bad Gateway</html>") "sig")
        "https://acme.example/authz/1" []).2 1 = true :=
  ⟨(C10_body_closed (constEnv (plainResponse 500 "<html>Bad Gateway</html>") "sig")
      sampleClient "https://acme.example/authz/1" _ [] _ _ _
      jsonMarshal_deactivation (sampleClient_sign _ _) rfl).1,
   (C10_body_closed (constEnv (plainResponse 500 "<html>Bad Gateway</html>") "sig")
      sampleClient "https://acme.example/authz/1" _ [] _ _ _
      jsonMarshal_deactivation (sampleClient_sign _ _) rfl).2.2.1⟩

/-- C7 (counterexample): the key strings `{}` and `{"X":1,"Y":2}` are valid
JSON objects that lack fields of the key (all three, and `D`), and
`newClient` does not fail on them: it returns a client whose key has nil
in the missing fields. -/
theorem C7_missing_fields_accepted :
    unmarshalReg "\x7b\x7d" = .ok { X := none, Y := none, D := none }
    ∧ (∃ c, newClient "\x7b\x7d" (counterSource toString) = .ok c
        ∧ c.signer.key = keyOfReg { X := none, Y := none, D := none })
    ∧ unmarshalReg "\x7b\"X\":1,\"Y\":2\x7d" = .ok { X := some 1, Y := some 2, D := none }
    ∧ (∃ c, newClient "\x7b\"X\":1,\"Y\":2\x7d" (counterSource toString) = .ok c
        ∧ c.signer.key = keyOfReg { X := some 1, Y := some 2, D := none }) :=
  ⟨by decide,
   ⟨_, newClient_of_unmarshal "\x7b\x7d" _ _ (by decide), rfl⟩,
   by decide,
   ⟨_, newClient_of_unmarshal "\x7b\"X\":1,\"Y\":2\x7d" _ _ (by decide), rfl⟩⟩

/-- C7 (amended): `newClient` fails with the decode error and returns no
client for every key string that is not one well-formed JSON value; a
well-formed JSON object is accepted when each member that names `X`, `Y` or
`D` holds an integer literal or `null`, also when fields are missing, and the
key of the returned client has nil in every field that no member names. -/
theorem C7_newClient_rejects_malformed (ks : String) (ns : NonceSource) :
    (∀ e, checkValid ks = .error e → newClient ks ns = .error (GoError.json e))
    ∧ (∀ ms, checkValid ks = .ok (JSON.obj ms) →
        (∀ m ∈ ms, selectsRegField m.1 = true → storableBigInt m.2 = true) →
        ∃ reg, newClient ks ns
            = .ok { directoryURL := "",
                    signer := { alg := SignatureAlgorithm.ES256, key := keyOfReg reg,
                                nonceSource := some ns } }
          ∧ ((∀ m ∈ ms, keyMatches "X" m.1 = false) → reg.X = none)
          ∧ ((∀ m ∈ ms, keyMatches "Y" m.1 = false) → reg.Y = none)
          ∧ ((∀ m ∈ ms, keyMatches "D" m.1 = false) → reg.D = none)) := by
  constructor
  · intro e h
    apply newClient_of_unmarshal_error
    unfold unmarshalReg
    rw [h]
  · intro ms hv hs
    obtain ⟨reg, hreg⟩ := storeReg_ok ms { X := none, Y := none, D := none } hs
    have hu : unmarshalReg ks = .ok reg := by
      unfold unmarshalReg
      rw [hv]
      exact hreg
    exact ⟨reg, newClient_of_unmarshal ks ns reg hu, storeReg_untouched ms _ reg hreg⟩

/-- C7 (amended) at two key strings: `{"X":1,` is cut short and is rejected
with the syntax error; `{"X":1,"Y":2}` lacks `D` and is accepted, with a nil
`D`. -/
theorem C7_newClient_rejects_malformed_witness :
    newClient "\x7b\"X\":1," (counterSource toString) = .error (GoError.json DecodeError.syntaxError)
    ∧ ∃ reg, newClient "\x7b\"X\":1,\"Y\":2\x7d" (counterSource toString)
          = .ok { directoryURL := "",
                  signer := { alg := SignatureAlgorithm.ES256, key := keyOfReg reg,
                              nonceSource := some (counterSource toString) } }
        ∧ reg.D = none :=
  ⟨(C7_newClient_rejects_malformed "\x7b\"X\":1," (counterSource toString)).1 _ rfl,
   match (C7_newClient_rejects_malformed "\x7b\"X\":1,\"Y\":2\x7d" (counterSource toString)).2
      [("X".toList, JSON.num "1".toList), ("Y".toList, JSON.num "2".toList)] rfl
      (by intro m hm; simp only [List.mem_cons, List.mem_singleton, List.not_mem_nil,
            or_false] at hm
          rcases hm with rfl | rfl <;> intro _ <;> decide) with
   | ⟨reg, h1, _, _, h4⟩ =>
     ⟨reg, h1, h4 (by intro m hm; simp only [List.mem_cons, List.mem_singleton,
            List.not_mem_nil, or_false] at hm
                      rcases hm with rfl | rfl <;> decide)⟩⟩

/-- C8 (counterexample): the key string `{"X":1,"Y":2,"D":3,"x":"oops"}` is a
well-formed JSON object in which `X`, `Y` and `D` are present as integers, and
`newClient` fails on it: the key `x` selects the field `X` too (keys match
without regard to case), and its value is no integer. -/
theorem C8_conflicting_member_rejected :
    checkValid "\x7b\"X\":1,\"Y\":2,\"D\":3,\"x\":\"oops\"\x7d"
      = .ok (JSON.obj [("X".toList, JSON.num "1".toList), ("Y".toList, JSON.num "2".toList),
          ("D".toList, JSON.num "3".toList), ("x".toList, JSON.str "oops".toList)])
    ∧ newClient "\x7b\"X\":1,\"Y\":2,\"D\":3,\"x\":\"oops\"\x7d" (counterSource toString)
      = .error (GoError.json DecodeError.bigInt) :=
  ⟨rfl, newClient_of_unmarshal_error _ _ _ (by decide)⟩

/-- C8 (amended): let the key string be a well-formed JSON object in which
every member whose key selects `X`, `Y` or `D` (keys match without regard to
case) holds an integer literal or `null`, and in which the last member that
selects `X` holds the integer `x`, the last that selects `Y` holds `y` and the
last that selects `D` holds `d`.  Then `newClient` succeeds; the client's
signer is for ES256, its key is the private key with scalar `d` and public
point `(x, y)` on P-256, and it is bound to the nonce source `ns`.  In
particular this is so for the key string `{"X":x,"Y":y,"D":d}` of any three
integers: nothing is asked of `x`, `y`, `d`. -/
theorem C8_newClient_accepts (ks : String) (ns : NonceSource) :
    (∀ (ms : List (List Char × JSON)) (x y d : Int),
      checkValid ks = .ok (JSON.obj ms) →
      (∀ m ∈ ms, selectsRegField m.1 = true → storableBigInt m.2 = true) →
      (∃ pre k lit post, ms = pre ++ (k, JSON.num lit) :: post
        ∧ keyMatches "X" k = true ∧ bigIntOfLit lit = some x
        ∧ ∀ m ∈ post, keyMatches "X" m.1 = false) →
      (∃ pre k lit post, ms = pre ++ (k, JSON.num lit) :: post
        ∧ keyMatches "Y" k = true ∧ bigIntOfLit lit = some y
        ∧ ∀ m ∈ post, keyMatches "Y" m.1 = false) →
      (∃ pre k lit post, ms = pre ++ (k, JSON.num lit) :: post
        ∧ keyMatches "D" k = true ∧ bigIntOfLit lit = some d
        ∧ ∀ m ∈ post, keyMatches "D" m.1 = false) →
      ∃ c, newClient ks ns = .ok c
        ∧ c.signer.alg = SignatureAlgorithm.ES256
        ∧ c.signer.key
            = { D := some d, PublicKey := { X := some x, Y := some y, Curve := Curve.P256 } }
        ∧ c.signer.nonceSource = some ns)
    ∧ (∀ x y d : Int, ks = keyText x y d →
      ∃ c, newClient ks ns = .ok c
        ∧ c.signer.alg = SignatureAlgorithm.ES256
        ∧ c.signer.key
            = { D := some d, PublicKey := { X := some x, Y := some y, Curve := Curve.P256 } }
        ∧ c.signer.nonceSource = some ns) := by
  have main : ∀ (reg : Reg) (x y d : Int), unmarshalReg ks = .ok reg →
      reg.X = some x → reg.Y = some y → reg.D = some d →
      ∃ c, newClient ks ns = .ok c
        ∧ c.signer.alg = SignatureAlgorithm.ES256
        ∧ c.signer.key
            = { D := some d, PublicKey := { X := some x, Y := some y, Curve := Curve.P256 } }
        ∧ c.signer.nonceSource = some ns := by
    intro reg x y d hreg hx hy hd
    refine ⟨_, newClient_of_unmarshal ks ns reg hreg, rfl, ?_, rfl⟩
    simp [keyOfReg, hx, hy, hd]
  constructor
  · intro ms x y d hvalid hint hX hY hD
    obtain ⟨reg, hreg⟩ := storeReg_ok ms { X := none, Y := none, D := none } hint
    have hu : unmarshalReg ks = .ok reg := by
      unfold unmarshalReg
      rw [hvalid]
      exact hreg
    obtain ⟨h1, h2, h3⟩ := storeReg_last ms _ reg hreg
    exact main reg x y d hu (h1 x hX) (h2 y hY) (h3 d hD)
  · intro x y d hks
    exact main _ x y d (by rw [hks]; exact unmarshalReg_keyText x y d) rfl rfl rfl

/-- C8 (amended) at the key string
`{ "d": 3, "Y": 2, "kty": "EC", "X": 7, "X": 1 }`, with its members out of
order, a lower-case key, a member that names no field and `X` given twice:
the key is accepted with `x = 1` (the last `X`), `y = 2`, `d = 3`, although
the point (1, 2) is not on P-256. -/
theorem C8_newClient_accepts_witness :
    isOnCurveP256 1 2 = false
    ∧ ∃ c, newClient "\x7b \"d\": 3, \"Y\": 2, \"kty\": \"EC\", \"X\": 7, \"X\": 1 \x7d"
          (counterSource toString) = .ok c
      ∧ c.signer.alg = SignatureAlgorithm.ES256
      ∧ c.signer.key
          = { D := some 3, PublicKey := { X := some 1, Y := some 2, Curve := Curve.P256 } }
      ∧ c.signer.nonceSource = some (counterSource toString) :=
  ⟨by decide,
   (C8_newClient_accepts "\x7b \"d\": 3, \"Y\": 2, \"kty\": \"EC\", \"X\": 7, \"X\": 1 \x7d"
      (counterSource toString)).1
     [("d".toList, JSON.num "3".toList), ("Y".toList, JSON.num "2".toList),
      ("kty".toList, JSON.str "EC".toList), ("X".toList, JSON.num "7".toList),
      ("X".toList, JSON.num "1".toList)] 1 2 3 rfl
     (by
       intro m hm
       simp only [List.mem_cons, List.mem_singleton, List.not_mem_nil, or_false] at hm
       rcases hm with rfl | rfl | rfl | rfl | rfl <;> decide)
     ⟨[("d".toList, JSON.num "3".toList), ("Y".toList, JSON.num "2".toList),
        ("kty".toList, JSON.str "EC".toList), ("X".toList, JSON.num "7".toList)],
      "X".toList, "1".toList, [], rfl, by decide, by decide,
      by intro m hm; cases hm⟩
     ⟨[("d".toList, JSON.num "3".toList)], "Y".toList, "2".toList,
      [("kty".toList, JSON.str "EC".toList), ("X".toList, JSON.num "7".toList),
        ("X".toList, JSON.num "1".toList)], rfl, by decide, by decide,
      by
        intro m hm
        simp only [List.mem_cons, List.mem_singleton, List.not_mem_nil, or_false] at hm
        rcases hm with rfl | rfl | rfl <;> decide⟩
     ⟨[], "d".toList, "3".toList,
      [("Y".toList, JSON.num "2".toList), ("kty".toList, JSON.str "EC".toList),
        ("X".toList, JSON.num "7".toList), ("X".toList, JSON.num "1".toList)],
      rfl, by decide, by decide,
      by
        intro m hm
        simp only [List.mem_cons, List.mem_singleton, List.not_mem_nil, or_false] at hm
        rcases hm with rfl | rfl | rfl | rfl <;> decide⟩⟩

/-- C9: let `c` be a client made by `newClient` with nonce source `ns`, and
let `disableAuthz` be invoked twice in a row.  If the source hands out `n1` in
the first invocation and `n2` in the second (and the signatures succeed), then
each invocation calls the source once and posts one request, whose signed body
carries in its protected header the nonce the source handed out in that
invocation; when `n1` and `n2` differ, so do the two bodies' nonces. -/
theorem C9_fresh_nonce (env : Env) (ks : String) (ns : NonceSource) (c : client)
    (url1 url2 b : String) (w w1 w2 : World) (n1 n2 sig1 sig2 : String)
    (hc : newClient ks ns = .ok c)
    (hb : jsonMarshal deactivation = .ok b)
    (hn1 : ns w = ((n1, none), w1))
    (hs1 : env.signPayload w1 c.signer.key
      { alg := SignatureAlgorithm.ES256, jwk := c.signer.key.PublicKey, nonce := n1 } b
        = .ok sig1)
    (hn2 : ns (c.disableAuthz env url1 w).2 = ((n2, none), w2))
    (hs2 : env.signPayload w2 c.signer.key
      { alg := SignatureAlgorithm.ES256, jwk := c.signer.key.PublicKey, nonce := n2 } b
        = .ok sig2) :
    ∃ body1 body2 : JsonWebSignature,
      (∃ t1, (c.disableAuthz env url1 w).2 = w1 ++ Event.post url1 joseJSON body1 :: t1
        ∧ (t1 = [] ∨ t1 = [Event.close w1.length]))
      ∧ (∃ t2, (c.disableAuthz env url2 (c.disableAuthz env url1 w).2).2
            = w2 ++ Event.post url2 joseJSON body2 :: t2
        ∧ (t2 = [] ∨ t2 = [Event.close w2.length]))
      ∧ body1.header.nonce = n1 ∧ body2.header.nonce = n2
      ∧ body1.payload = b ∧ body2.payload = b
      ∧ (n1 ≠ n2 → body1.header.nonce ≠ body2.header.nonce) := by
  obtain ⟨halg, hns⟩ := newClient_signer ks ns c hc
  rw [← halg] at hs1 hs2
  have h1 := sign_of_nonce env c.signer ns b n1 sig1 w w1 hns hn1 hs1
  have h2 := sign_of_nonce env c.signer ns b n2 sig2 _ w2 hns hn2 hs2
  exact ⟨_, _, disableAuthz_world env c url1 b w w1 _ hb h1,
    disableAuthz_world env c url2 b _ w2 _ hb h2, rfl, rfl, rfl, rfl, fun h => h⟩

/-- C9 with a nonce source that counts (`"0"`, `"1"`, ...): two invocations in
a row leave the trace nonce call, POST with nonce `0`, `Close`, nonce call,
POST with nonce `1`, `Close`. -/
theorem C9_fresh_nonce_witness :
    ∃ body1 body2 : JsonWebSignature,
      (∃ t1, (sampleClient.disableAuthz
            (constEnv (plainResponse 200 "\x7b\"status\":\"valid\"\x7d") "sig") "u1" []).2
          = [Event.issued "0"] ++ Event.post "u1" joseJSON body1 :: t1
        ∧ (t1 = [] ∨ t1 = [Event.close [Event.issued "0"].length]))
      ∧ (∃ t2, (sampleClient.disableAuthz
            (constEnv (plainResponse 200 "\x7b\"status\":\"valid\"\x7d") "sig") "u2"
            (sampleClient.disableAuthz
              (constEnv (plainResponse 200 "\x7b\"status\":\"valid\"\x7d") "sig") "u1" []).2).2
          = [Event.issued "0", Event.post "u1" joseJSON (sampleSigned "0" "sig"),
              Event.close 1, Event.issued "1"] ++ Event.post "u2" joseJSON body2 :: t2
        ∧ (t2 = [] ∨ t2 = [Event.close [Event.issued "0",
              Event.post "u1" joseJSON (sampleSigned "0" "sig"),
              Event.close 1, Event.issued "1"].length]))
      ∧ body1.header.nonce = "0" ∧ body2.header.nonce = "1"
      ∧ body1.payload = "\x7b\"resource\":\"authz\",\"Status\":\"deactivated\"\x7d"
      ∧ body2.payload = "\x7b\"resource\":\"authz\",\"Status\":\"deactivated\"\x7d"
      ∧ (("0" : String) ≠ "1" → body1.header.nonce ≠ body2.header.nonce) :=
  C9_fresh_nonce (constEnv (plainResponse 200 "\x7b\"status\":\"valid\"\x7d") "sig")
    sampleKey (counterSource toString) sampleClient "u1" "u2" _ [] _ _ "0" "1" "sig" "sig"
    (newClient_of_unmarshal sampleKey _ { X := some 1, Y := some 2, D := some 3 } (by decide))
    jsonMarshal_deactivation rfl rfl (by decide) rfl

end Acmecancel
